import Mathlib

/-!
Verification of the measure classification grammar
(`nemo_text_processing/text_normalization/en/taggers/measure.py`).

The pynini weighted transducers are shallow-embedded as functions from an
input character list to the list of accepting paths, each path being an
output character list together with its additive cost.  Costs are carried
as integers in units of one thousandth of a pynini cost, so the source
weights `-0.001`, `-1` and `-100` appear here as `-1`, `-1000` and
`-100000`; this positive rescaling preserves sums and the cost order.
Pynini's `optimize` preserves the weighted relation and is therefore the
identity in this embedding.

Leaf data that the repository loads from `.tsv` files and the pre-built
primitive grammars (Cardinal, Decimal, Fraction, ordinal tagger and
verbalizer, `graph_utils` helpers) are not under `src/`; those are
modelled from the spec, as marked on each such definition.
-/

/-- A weighted transducer: for an input string, the list of accepting
paths as (output string, additive cost) pairs. -/
abbrev Fst := List Char → List (List Char × Int)

/-- Character list of a string literal. -/
def str (s : String) : List Char := s.data

/-- The non-breaking space character inserted by the grammar
(`NEMO_NON_BREAKING_SPACE`). -/
def nbsp : Char := ' '

/-- All ways of cutting an input into a prefix and a suffix. -/
def splits : List Char → List (List Char × List Char)
  | [] => [([], [])]
  | c :: cs => ([], c :: cs) :: (splits cs).map (fun p => (c :: p.1, p.2))

/-- Union (alternation) of two transducers, `a | b`. -/
def unionF (a b : Fst) : Fst := fun i => a i ++ b i

/-- Concatenation of two transducers, `a + b`. -/
def concatF (a b : Fst) : Fst := fun i =>
  (splits i).flatMap fun p =>
    (a p.1).flatMap fun q => (b p.2).map fun r => (q.1 ++ r.1, q.2 + r.2)

/-- Composition `a @ b`: outputs of `a` feed the input side of `b`. -/
def composeF (a b : Fst) : Fst := fun i =>
  (a i).flatMap fun q => (b q.1).map fun r => (r.1, q.2 + r.2)

/-- Literal cross-mapping `pynini.cross x y`. -/
def crossF (x y : List Char) : Fst := fun i => if i = x then [(y, 0)] else []

/-- Output-only insertion `pynutil.insert y`. -/
def insertF (y : List Char) : Fst := crossF [] y

/-- Literal acceptor `pynini.accep x`. -/
def accepF (x : List Char) : Fst := crossF x x

/-- Acceptor of the language recognised by the predicate `p`. -/
def accepIf (p : List Char → Bool) : Fst := fun i => if p i then [(i, 0)] else []

/-- Optional sub-automaton, `pynini.closure(a, 0, 1)`. -/
def optF (a : Fst) : Fst := fun i => (if i = [] then [([], 0)] else []) ++ a i

/-- Finite literal-pair lexicon, `pynini.string_file` / `pynini.string_map`. -/
def stringMap (t : List (List Char × List Char)) : Fst := fun i =>
  t.filterMap fun p => if i = p.1 then some (p.2, 0) else none

/-- Weight biasing `pynutil.add_weight a c` (cost in thousandths). -/
def addWeightF (c : Int) (a : Fst) : Fst := fun i => (a i).map fun q => (q.1, q.2 + c)

/-- The inverse of a finite lexicon: `pynini.invert` of a `string_map`
is the `string_map` of the swapped pair list. -/
def invertTable (t : List (List Char × List Char)) : List (List Char × List Char) :=
  t.map fun p => (p.2, p.1)

/-- ASCII letter, the single-character class `NEMO_ALPHA`. -/
def isAlphaChar (c : Char) : Bool := c.isAlpha

/-- ASCII digit, the single-character class `NEMO_DIGIT`. -/
def isDigitChar (c : Char) : Bool := c.isDigit

/-- Whitespace recognised by `delete_space` (`NEMO_WHITE_SPACE`). -/
def isWhiteChar (c : Char) : Bool :=
  c = ' ' || c = '\t' || c = '\n' || c = '\r' || c = nbsp

/-- Kleene plus of a single-character class, `pynini.closure(class, 1)`:
a non-empty run of characters of the class, accepted unchanged. -/
def charClassPlus (p : Char → Bool) : Fst :=
  accepIf fun i => !i.isEmpty && i.all p

/-- Kleene star of a single-character class, `pynini.closure(class)`. -/
def charClassStar (p : Char → Bool) : Fst := accepIf (List.all · p)

/-- Bounded power of a single-character class, `class ** (lo, hi)`. -/
def charClassRange (p : Char → Bool) (lo hi : Nat) : Fst :=
  accepIf fun i => decide (lo ≤ i.length) && decide (i.length ≤ hi) && i.all p

/-- Modelled from the spec: `graph_utils.delete_space` (not under `src/`), the
shared space-delete combinator of §2: deletes any run of whitespace. -/
def delete_space : Fst := fun i => if i.all isWhiteChar then [([], 0)] else []

/-- Modelled from the spec: `graph_utils.insert_space` (not under `src/`). -/
def insert_space : Fst := insertF (str " ")

/-- Ordinary space to non-breaking space, on one character. -/
def spaceToNbsp (c : Char) : Char := if c = ' ' then nbsp else c

/-- Modelled from the spec: `graph_utils.convert_space` (not under `src/`):
rewrites every ordinary space on the output side to the non-breaking
separator (§4.1). -/
def convertSpaceF (a : Fst) : Fst := fun i =>
  (a i).map fun q => (q.1.map spaceToNbsp, q.2)

/-- Modelled from the spec: `pynini.closure(TO_LOWER, 1)` with `TO_LOWER`
from `graph_utils` (not under `src/`): a non-empty run of uppercase
letters, each mapped to its lowercase form. -/
def toLowerPlus : Fst := fun i =>
  if !i.isEmpty && i.all Char.isUpper then [(i.map Char.toLower, 0)] else []

/-- Regular English pluralization: "es" after a sibilant-final word,
otherwise "s". -/
def pluralize (i : List Char) : List Char :=
  if i.getLast? = some 's' || i.getLast? = some 'x' || i.getLast? = some 'z' then
    i ++ str "es"
  else i ++ str "s"

/-- Modelled from the spec: `graph_utils.SINGULAR_TO_PLURAL` (not under
`src/`), the independent singular→plural mapping of §4.1. -/
def SINGULAR_TO_PLURAL : Fst := fun i => [(pluralize i, 0)]

/-- Modelled from the spec: the unit table `data/measurements.tsv` (not under
`src/`): surface form → canonical singular unit (§4.1), restricted to
entries exercised by the spec's examples. -/
def measurementsTable : List (List Char × List Char) :=
  [(str "kg", str "kilogram"), (str "km", str "kilometer"), (str "h", str "hour"),
   (str "°C", str "degree Celsius"), (str "°F", str "degree Fahrenheit"),
   (str "degree Celsius", str "degree Celsius"),
   (str "degree Fahrenheit", str "degree Fahrenheit")]

/-- Modelled from the spec: the injected Cardinal primitive's
integer-spelling graph (§3), as a finite table covering the examples. -/
def cardinalTable : List (List Char × List Char) :=
  [(str "1", str "one"), (str "2", str "two"), (str "4", str "four"),
   (str "5", str "five"), (str "10", str "ten"), (str "12", str "twelve"),
   (str "123", str "one hundred twenty three"),
   (str "2788", str "two thousand seven hundred eighty eight"),
   (str "12345", str "twelve thousand three hundred forty five")]

/-- The cardinal integer-spelling graph handle, `cardinal.graph`
(`deterministic=True`, so the looser range variant is not folded in). -/
def cardinal_graph : Fst := stringMap cardinalTable

/-- Modelled from the spec: Cardinal's hundred-component sub-graph
`graph_hundred_component_at_least_one_none_zero_digit` used by the
address house-number spellout (§4.3). -/
def hundredComponentTable : List (List Char × List Char) :=
  [(str "1", str "one"), (str "2", str "two"), (str "5", str "five"),
   (str "12", str "twelve"), (str "23", str "twenty three"),
   (str "27", str "twenty seven"), (str "88", str "eighty eight")]

/-- The hundred-component spelling handle of the Cardinal primitive. -/
def graph_hundred_component_at_least_one_none_zero_digit : Fst :=
  stringMap hundredComponentTable

/-- Spoken word for one digit character. -/
def digitWord (c : Char) : List Char :=
  if c = '0' then str "zero" else if c = '1' then str "one"
  else if c = '2' then str "two" else if c = '3' then str "three"
  else if c = '4' then str "four" else if c = '5' then str "five"
  else if c = '6' then str "six" else if c = '7' then str "seven"
  else if c = '8' then str "eight" else str "nine"

/-- Digit-by-digit spelling, space separated. -/
def spellDigits : List Char → List Char
  | [] => []
  | [c] => digitWord c
  | c :: cs => digitWord c ++ ' ' :: spellDigits cs

/-- Modelled from the spec: Cardinal's single-digit spelling sub-graph
(§3), used for the digit-by-digit zip code spellout (§4.3). -/
def single_digits_graph : Fst := fun i =>
  if !i.isEmpty && i.all Char.isDigit then [(spellDigits i, 0)] else []

/-- Modelled from the spec: the injected Decimal primitive's sign-free
decimal-literal graph `decimal.final_graph_wo_negative` (§3), as a finite
table; outputs are the nested decimal field blocks of §3. -/
def decimalTable : List (List Char × List Char) :=
  [(str ".5", str "fractional_part: \"five\""),
   (str "4.5", str "integer_part: \"four\" fractional_part: \"five\"")]

/-- The sign-free decimal-literal graph handle. -/
def final_graph_wo_negative : Fst := stringMap decimalTable

/-- Modelled from the spec: the injected Fraction primitive's "A/B" graph
`fraction.graph` (§3), as a finite table producing fraction fields. -/
def fractionTable : List (List Char × List Char) :=
  [(str "2/3", str "numerator: \"two\" denominator: \"three\"")]

/-- The fraction graph handle. -/
def fraction_graph : Fst := stringMap fractionTable

/-- Modelled from the spec: `data/math_operations.tsv` (not under `src/`),
the math operator symbol lexicon of §6: symbol → spoken word. -/
def mathOperationsTable : List (List Char × List Char) :=
  [(str "+", str "plus"), (str "-", str "minus"), (str "x", str "times")]

/-- The math operator lexicon transducer. -/
def math_operations : Fst := stringMap mathOperationsTable

/-- Modelled from the spec: the address abbreviation lexicon
`data/address/address_words.tsv` via `get_formats` (not under `src/`),
e.g. "Expy" → "Expressway" (§4.3). -/
def addressWordsTable : List (List Char × List Char) :=
  [(str "Expy", str "Expressway"), (str "Ave", str "Avenue"),
   (str "Street", str "Street")]

/-- The address word lexicon transducer. -/
def address_words_formats : Fst := stringMap addressWordsTable

/-- Modelled from the spec: rows of `data/address/states.tsv` (not under
`src/`): (full state name, USPS abbreviation) pairs (§4.3). -/
def statesTable : List (List Char × List Char) :=
  [(str "California", str "CA")]

/-- Initial-period variant of an abbreviation: "CA" becomes "C.A". -/
def dotVariant : List Char → List Char
  | [] => []
  | c :: cs => c :: '.' :: cs

/-- State rows extended with the duplicated initial-period variants, as
built in `get_address_graph`. -/
def statesWithVariants : List (List Char × List Char) :=
  statesTable ++ statesTable.map fun p => (p.1, dotVariant p.2)

/-- Modelled from the spec: the pre-built ordinal tagger composed with the
ordinal verbalizer, used inline for street numbers (§4.3): "1st" → "first". -/
def ordinal_num : Fst :=
  stringMap [(str "1st", str "first"), (str "5th", str "fifth")]

/-- The plain unit table transducer, `pynini.string_file(measurements.tsv)`. -/
def graph_unit_base : Fst := stringMap measurementsTable

/-- The case-folded unit variant of line 68:
`compose(closure(TO_LOWER, 1) + closure(NEMO_ALPHA), graph_unit)`. -/
def graph_unit_cased : Fst :=
  composeF (concatF toLowerPlus (charClassStar isAlphaChar)) graph_unit_base

/-- `graph_unit` after line 68: the table unioned with its case-folded
variant (still with ordinary spaces). -/
def graph_unit_raw : Fst := unionF graph_unit_base graph_unit_cased

/-- Acceptor of `NEMO_SIGMA` minus the two multi-word degree units. -/
def notDegrees (i : List Char) : Bool :=
  !(i == str "degree Celsius" || i == str "degree Fahrenheit")

/-- Lines 70–72: `graph_unit` composed with the difference of sigma and
the two degree units. -/
def graph_unit_no_degrees : Fst := composeF graph_unit_raw (accepIf notDegrees)

/-- Line 74: the regular plural units,
`convert_space(graph_unit_no_degrees @ SINGULAR_TO_PLURAL)`. -/
def graph_unit_plural_regular : Fst :=
  convertSpaceF (composeF graph_unit_no_degrees SINGULAR_TO_PLURAL)

/-- Lines 75–78: the degree Celsius special case of the plural units. -/
def graph_unit_plural_celsius : Fst :=
  composeF (composeF graph_unit_raw (accepF (str "degree Celsius")))
    (crossF (str "degree Celsius") (str "degrees Celsius"))

/-- Lines 79–82: the degree Fahrenheit special case of the plural units. -/
def graph_unit_plural_fahrenheit : Fst :=
  composeF (composeF graph_unit_raw (accepF (str "degree Fahrenheit")))
    (crossF (str "degree Fahrenheit") (str "degrees Fahrenheit"))

/-- Lines 74–83: the pluralized unit transducer `graph_unit_plural`. -/
def graph_unit_plural : Fst :=
  unionF graph_unit_plural_regular
    (unionF graph_unit_plural_celsius graph_unit_plural_fahrenheit)

/-- Line 84: `graph_unit = convert_space(graph_unit)`. -/
def graph_unit : Fst := convertSpaceF graph_unit_raw

/-- Line 86: the shared optional negative-sign combinator
`closure(insert("negative: ") + cross("-", "\"true\" "), 0, 1)`. -/
def optional_graph_negative : Fst :=
  optF (concatF (insertF (str "negative: "))
    (crossF (str "-") (str "\"true\" ")))

/-- Line 88: the per-unit transducer `graph_unit2`:
`cross("/", "per") + delete_space + insert(NBSP) + graph_unit`. -/
def graph_unit2 : Fst :=
  concatF (crossF (str "/") (str "per"))
    (concatF delete_space (concatF (insertF [nbsp]) graph_unit))

/-- Lines 90–92: the optional trailing per-unit. -/
def optional_graph_unit2 : Fst :=
  optF (concatF delete_space (concatF (insertF [nbsp]) graph_unit2))

/-- Lines 94–98: the plural units field. -/
def unit_plural : Fst :=
  concatF (insertF (str "units: \""))
    (concatF (unionF (concatF graph_unit_plural optional_graph_unit2) graph_unit2)
      (insertF (str "\"")))

/-- Lines 100–102: the singular units field. -/
def unit_singular : Fst :=
  concatF (insertF (str "units: \""))
    (concatF (unionF (concatF graph_unit optional_graph_unit2) graph_unit2)
      (insertF (str "\"")))

/-- Lines 104–111: branch 1, decimal quantity plus plural unit. -/
def subgraph_decimal : Fst :=
  concatF (insertF (str "decimal \x7b "))
    (concatF optional_graph_negative
      (concatF final_graph_wo_negative
        (concatF delete_space
          (concatF (insertF (str " \x7d ")) unit_plural))))

/-- Lines 113–122: branch 2, cardinal quantity other than "1" plus
plural unit; the quantity passes through `(NEMO_SIGMA - "1") @ cardinal_graph`. -/
def subgraph_cardinal_plural : Fst :=
  concatF (insertF (str "cardinal \x7b "))
    (concatF optional_graph_negative
      (concatF (insertF (str "integer: \""))
        (concatF (composeF (accepIf fun i => !(i == str "1")) cardinal_graph)
          (concatF delete_space
            (concatF (insertF (str "\""))
              (concatF (insertF (str " \x7d ")) unit_plural))))))

/-- Lines 124–133: branch 3, the quantity "1" crossed to "one" plus
singular unit. -/
def subgraph_cardinal_singular : Fst :=
  concatF (insertF (str "cardinal \x7b "))
    (concatF optional_graph_negative
      (concatF (insertF (str "integer: \""))
        (concatF (crossF (str "1") (str "one"))
          (concatF delete_space
            (concatF (insertF (str "\""))
              (concatF (insertF (str " \x7d ")) unit_singular))))))

/-- Lines 113–133: `subgraph_cardinal`, the union of the plural and the
singular cardinal branches. -/
def subgraph_cardinal : Fst :=
  unionF subgraph_cardinal_plural subgraph_cardinal_singular

/-- Lines 135–142: branch 4, a bare `/unit` or `per unit` with no leading
quantity. -/
def unit_graph : Fst :=
  concatF (insertF (str "cardinal \x7b integer: \"-\" \x7d units: \""))
    (concatF (unionF (crossF (str "/") (str "per")) (crossF (str "per") (str "per")))
      (concatF delete_space
        (concatF (insertF [nbsp])
          (concatF graph_unit (insertF (str "\" preserve_order: true"))))))

/-- Lines 144–151: branch 5, digit-dash-alpha such as "5-bedroom". -/
def cardinal_dash_alpha : Fst :=
  concatF (insertF (str "cardinal \x7b integer: \""))
    (concatF cardinal_graph
      (concatF (accepF (str "-"))
        (concatF (insertF (str "\" \x7d units: \""))
          (concatF (charClassPlus isAlphaChar) (insertF (str "\""))))))

/-- Lines 153–161: branch 6, alpha-dash-digit such as "category-5". -/
def alpha_dash_cardinal : Fst :=
  concatF (insertF (str "units: \""))
    (concatF (charClassPlus isAlphaChar)
      (concatF (accepF (str "-"))
        (concatF (insertF (str "\""))
          (concatF (insertF (str " cardinal \x7b integer: \""))
            (concatF cardinal_graph (insertF (str "\" \x7d preserve_order: true")))))))

/-- Lines 163–170: branch 7, decimal-dash-alpha. -/
def decimal_dash_alpha : Fst :=
  concatF (insertF (str "decimal \x7b "))
    (concatF final_graph_wo_negative
      (concatF (crossF (str "-") [])
        (concatF (insertF (str " \x7d units: \""))
          (concatF (charClassPlus isAlphaChar) (insertF (str "\""))))))

/-- Lines 172–178: branch 9, the "decimal x" size form. -/
def decimal_times : Fst :=
  concatF (insertF (str "decimal \x7b "))
    (concatF final_graph_wo_negative
      (concatF (insertF (str " \x7d units: \""))
        (concatF (unionF (crossF (str "x") (str "x")) (crossF (str "X") (str "x")))
          (insertF (str "\"")))))

/-- Lines 180–188: branch 8, alpha-dash-decimal. -/
def alpha_dash_decimal : Fst :=
  concatF (insertF (str "units: \""))
    (concatF (charClassPlus isAlphaChar)
      (concatF (accepF (str "-"))
        (concatF (insertF (str "\""))
          (concatF (insertF (str " decimal \x7b "))
            (concatF final_graph_wo_negative (insertF (str " \x7d preserve_order: true")))))))

/-- Lines 190–192: branch 10, fraction plus plural unit. -/
def subgraph_fraction : Fst :=
  concatF (insertF (str "fraction \x7b "))
    (concatF fraction_graph
      (concatF delete_space
        (concatF (insertF (str " \x7d ")) unit_plural)))

/-- Lines 252–255: the split house-number spellout: 1–2 digit prefix,
then a 2-digit suffix whose leading zero is spelled "zero". -/
def address_num_unweighted : Fst :=
  concatF (composeF (charClassRange isDigitChar 1 2)
      graph_hundred_component_at_least_one_none_zero_digit)
    (concatF insert_space
      (composeF (charClassRange isDigitChar 2 2)
        (concatF (optF (crossF (str "0") (str "zero ")))
          graph_hundred_component_at_least_one_none_zero_digit)))

/-- Line 258: the split path restricted to 3–4 digit runs and biased by
weight `-0.001` (here `-1` in thousandths). -/
def address_num_split : Fst :=
  addWeightF (-1) (composeF (charClassRange isDigitChar 3 4) address_num_unweighted)

/-- Lines 258–259: the full house number: the biased split path unioned
with the generic cardinal fallback. -/
def address_num : Fst := unionF address_num_split cardinal_graph

/-- Lines 261–266: a compass direction letter expanded to its word, with
an optional trailing period deleted. -/
def direction_core : Fst :=
  concatF (unionF (crossF (str "E") (str "East"))
      (unionF (crossF (str "S") (str "South"))
        (unionF (crossF (str "W") (str "West")) (crossF (str "N") (str "North")))))
    (optF (crossF (str ".") []))

/-- Line 268: the optional direction token, weight-biased by `-1`
(`-1000` in thousandths). -/
def direction : Fst :=
  optF (addWeightF (-1000) (concatF (accepF (str " ")) direction_core))

/-- Lines 269–276: street words: optional ordinal or a word, then free
words, then the abbreviation lexicon. -/
def address_words : Fst :=
  concatF (accepF (str " "))
    (concatF (unionF (optF ordinal_num) (charClassPlus isAlphaChar))
      (concatF (accepF (str " "))
        (concatF (charClassStar fun c => c.isAlpha || c = ' ')
          address_words_formats)))

/-- Lines 278–279: the optional comma-separated city. -/
def city : Fst :=
  optF (concatF (accepF (str ","))
    (concatF (accepF (str " ")) (charClassPlus fun c => c.isAlpha || c = ' ')))

/-- Lines 281–289: the optional comma-separated state, matched against the
inverted USPS table with its initial-period variants. -/
def state : Fst :=
  optF (concatF (accepF (str ","))
    (concatF (accepF (str " ")) (stringMap (invertTable statesWithVariants))))

/-- Lines 291–296: the optional zip code spelled digit by digit, strongly
biased by `-100` (`-100000` in thousandths). -/
def zip_code : Fst :=
  optF (addWeightF (-100000)
    (concatF (optF (accepF (str ",")))
      (concatF (accepF (str " "))
        (composeF (charClassRange isDigitChar 5 5) single_digits_graph))))

/-- Lines 298–303: the address body, with the optional trailing
city/state/zip clause grouped and biased by `-0.001`. -/
def address_inner : Fst :=
  concatF address_num
    (concatF direction
      (concatF address_words
        (optF (addWeightF (-1) (concatF city (concatF state zip_code))))))

/-- Lines 237–308: `get_address_graph`; in `lm` mode an alternate path may
stop right after the street words, optionally consuming a period. -/
def get_address_graph (lm : Bool) : Fst :=
  if lm then
    unionF address_inner
      (concatF address_num
        (concatF direction (concatF address_words (optF (crossF (str ".") [])))))
  else address_inner

/-- Lines 194–199: branch 11, the address wrapped as an address token
(built with the default `lm = false`). -/
def address_branch : Fst :=
  concatF (insertF (str "units: \"address\" cardinal \x7b integer: \""))
    (concatF (get_address_graph false)
      (insertF (str "\" \x7d preserve_order: true")))

/-- Line 202: a delimiter: an accepted or an inserted space. -/
def delimiter : Fst := unionF (accepF (str " ")) (insertF (str " "))

/-- Lines 204–214: the inline equation body "A op B = C". -/
def math_core : Fst :=
  concatF (unionF cardinal_graph (charClassRange isAlphaChar 1 1))
    (concatF delimiter
      (concatF math_operations
        (concatF (unionF delimiter (charClassRange isAlphaChar 1 1))
          (concatF cardinal_graph
            (concatF delimiter
              (concatF (crossF (str "=") (str "equals"))
                (concatF delimiter
                  (unionF cardinal_graph (charClassRange isAlphaChar 1 1)))))))))

/-- Lines 215–219: branch 12, the equation wrapped as a math token. -/
def math_branch : Fst :=
  concatF (insertF (str "units: \"math\" cardinal \x7b integer: \""))
    (concatF math_core (insertF (str "\" \x7d preserve_order: true")))

/-- Lines 220–232: the finished alternation of all branches. -/
def final_graph : Fst :=
  unionF subgraph_decimal
    (unionF subgraph_cardinal
      (unionF unit_graph
        (unionF cardinal_dash_alpha
          (unionF alpha_dash_cardinal
            (unionF decimal_dash_alpha
              (unionF decimal_times
                (unionF alpha_dash_decimal
                  (unionF subgraph_fraction
                    (unionF address_branch math_branch)))))))))

/-- Modelled from the spec: `GraphFst.add_tokens` (§4.4, not under `src/`)
wraps the alternation with the outer token delimiters `measure { ... }`;
the final `optimize` pass preserves the weighted relation. -/
def add_tokens (a : Fst) : Fst :=
  concatF (insertF (str "measure \x7b ")) (concatF a (insertF (str " \x7d")))

/-- Lines 234–235: the finished, token-wrapped transducer `self.fst`. -/
def measure_fst : Fst := add_tokens final_graph

/-- A transducer is quote-clean when no output contains a double quote. -/
def CleanF (a : Fst) : Prop := ∀ i o w, (o, w) ∈ a i → '"' ∉ o

/-- Leaf field labels of the TaggedToken shape (§3). -/
def leafLabels : List (List Char) :=
  [str "negative", str "integer", str "integer_part", str "fractional_part",
   str "numerator", str "denominator", str "units"]

/-- Block field labels of the TaggedToken shape (§3). -/
def blockLabels : List (List Char) :=
  [str "measure", str "cardinal", str "decimal", str "fraction"]

mutual

/-- Well-formed TaggedToken field: a quoted leaf field, the preserve_order
flag, or a brace-delimited block of fields (§3). -/
inductive WFField : List Char → Prop
  | leaf (lab v : List Char) : lab ∈ leafLabels → '"' ∉ v →
      WFField (lab ++ str ": \"" ++ v ++ str "\"")
  | flag : WFField (str "preserve_order: true")
  | block (lab body : List Char) : lab ∈ blockLabels → WFFields body →
      WFField (lab ++ str " \x7b " ++ body ++ str " \x7d")

/-- A non-empty space-separated sequence of well-formed fields. -/
inductive WFFields : List Char → Prop
  | single (f : List Char) : WFField f → WFFields f
  | cons (f r : List Char) : WFField f → WFFields r → WFFields (f ++ ' ' :: r)

end

theorem mem_splits (i a b : List Char) : (a, b) ∈ splits i ↔ a ++ b = i := by
  induction i generalizing a b with
  | nil => simp [splits, and_comm]
  | cons c cs ih =>
      simp only [splits, List.mem_cons, List.mem_map, Prod.mk.injEq]
      constructor
      · rintro (⟨h1, h2⟩ | ⟨⟨x, y⟩, hxy, h1, h2⟩)
        · subst h1; subst h2; rfl
        · subst h1; subst h2; simpa using (ih x y).mp hxy
      · intro h
        cases a with
        | nil => exact Or.inl ⟨rfl, by simpa using h⟩
        | cons a0 as =>
            injection h with h1 h2
            exact Or.inr ⟨(as, b), (ih as b).mpr h2, by simp [h1], rfl⟩

theorem mem_concatF {a b : Fst} {i o : List Char} {w : Int} :
    (o, w) ∈ concatF a b i ↔
      ∃ i1 i2 o1 w1 o2 w2, i1 ++ i2 = i ∧ (o1, w1) ∈ a i1 ∧ (o2, w2) ∈ b i2 ∧
        o = o1 ++ o2 ∧ w = w1 + w2 := by
  simp only [concatF, List.mem_flatMap, List.mem_map, Prod.mk.injEq]
  constructor
  · rintro ⟨⟨i1, i2⟩, hsp, ⟨o1, w1⟩, h1, ⟨o2, w2⟩, h2, ho, hw⟩
    exact ⟨i1, i2, o1, w1, o2, w2, (mem_splits i i1 i2).mp hsp, h1, h2, ho.symm, hw.symm⟩
  · rintro ⟨i1, i2, o1, w1, o2, w2, hi, h1, h2, rfl, rfl⟩
    exact ⟨(i1, i2), (mem_splits i i1 i2).mpr hi, (o1, w1), h1, (o2, w2), h2, rfl, rfl⟩

theorem mem_composeF {a b : Fst} {i o : List Char} {w : Int} :
    (o, w) ∈ composeF a b i ↔
      ∃ m w1 w2, (m, w1) ∈ a i ∧ (o, w2) ∈ b m ∧ w = w1 + w2 := by
  simp only [composeF, List.mem_flatMap, List.mem_map, Prod.mk.injEq]
  constructor
  · rintro ⟨⟨m, w1⟩, h1, ⟨o2, w2⟩, h2, ho, hw⟩
    subst ho; exact ⟨m, w1, w2, h1, h2, hw.symm⟩
  · rintro ⟨m, w1, w2, h1, h2, rfl⟩
    exact ⟨(m, w1), h1, (o, w2), h2, rfl, rfl⟩

theorem mem_unionF {a b : Fst} {i : List Char} {q : List Char × Int} :
    q ∈ unionF a b i ↔ q ∈ a i ∨ q ∈ b i := by
  simp [unionF]

theorem mem_crossF {x y : List Char} {i o : List Char} {w : Int} :
    (o, w) ∈ crossF x y i ↔ i = x ∧ o = y ∧ w = 0 := by
  simp only [crossF]
  by_cases h : i = x <;> simp [h]

theorem mem_insertF {y : List Char} {i o : List Char} {w : Int} :
    (o, w) ∈ insertF y i ↔ i = [] ∧ o = y ∧ w = 0 := mem_crossF

theorem mem_accepF {x : List Char} {i o : List Char} {w : Int} :
    (o, w) ∈ accepF x i ↔ i = x ∧ o = x ∧ w = 0 := mem_crossF

theorem mem_accepIf {p : List Char → Bool} {i o : List Char} {w : Int} :
    (o, w) ∈ accepIf p i ↔ p i = true ∧ o = i ∧ w = 0 := by
  simp only [accepIf]
  by_cases h : p i <;> simp [h]

theorem mem_optF {a : Fst} {i o : List Char} {w : Int} :
    (o, w) ∈ optF a i ↔ (i = [] ∧ o = [] ∧ w = 0) ∨ (o, w) ∈ a i := by
  simp only [optF, List.mem_append]
  by_cases h : i = [] <;> simp [h]

theorem mem_stringMap {t : List (List Char × List Char)} {i o : List Char} {w : Int} :
    (o, w) ∈ stringMap t i ↔ (i, o) ∈ t ∧ w = 0 := by
  simp only [stringMap, List.mem_filterMap]
  constructor
  · rintro ⟨⟨x, y⟩, hmem, hf⟩
    by_cases h : i = x
    · subst h
      simp at hf
      obtain ⟨rfl, rfl⟩ := hf
      exact ⟨hmem, rfl⟩
    · simp [h] at hf
  · rintro ⟨hmem, rfl⟩
    exact ⟨(i, o), hmem, by simp⟩

theorem mem_addWeightF {c : Int} {a : Fst} {i o : List Char} {w : Int} :
    (o, w) ∈ addWeightF c a i ↔ ∃ w', (o, w') ∈ a i ∧ w = w' + c := by
  simp only [addWeightF, List.mem_map, Prod.mk.injEq]
  constructor
  · rintro ⟨⟨o', w'⟩, hm, ho, hw⟩
    subst ho; exact ⟨w', hm, hw.symm⟩
  · rintro ⟨w', hm, rfl⟩
    exact ⟨(o, w'), hm, rfl, rfl⟩

theorem mem_delete_space {i o : List Char} {w : Int} :
    (o, w) ∈ delete_space i ↔ i.all isWhiteChar = true ∧ o = [] ∧ w = 0 := by
  simp only [delete_space]
  by_cases h : i.all isWhiteChar <;> simp [h]

theorem mem_toLowerPlus {i o : List Char} {w : Int} :
    (o, w) ∈ toLowerPlus i ↔
      i ≠ [] ∧ i.all Char.isUpper = true ∧ o = i.map Char.toLower ∧ w = 0 := by
  simp only [toLowerPlus]
  by_cases h : !i.isEmpty && i.all Char.isUpper
  · simp only [if_pos h]
    simp only [Bool.and_eq_true, Bool.not_eq_true', List.isEmpty_eq_false] at h
    simp [h.1, h.2, eq_comm]
  · simp only [if_neg h]
    simp only [Bool.and_eq_true, Bool.not_eq_true', List.isEmpty_eq_false] at h
    simp only [List.not_mem_nil, false_iff]
    rintro ⟨h1, h2, -, -⟩
    exact h ⟨h1, h2⟩

theorem mem_convertSpaceF {a : Fst} {i o : List Char} {w : Int} :
    (o, w) ∈ convertSpaceF a i ↔ ∃ o', (o', w) ∈ a i ∧ o = o'.map spaceToNbsp := by
  simp only [convertSpaceF, List.mem_map, Prod.mk.injEq]
  constructor
  · rintro ⟨⟨o', w'⟩, hm, ho, hw⟩
    subst hw; exact ⟨o', hm, ho.symm⟩
  · rintro ⟨o', hm, rfl⟩
    exact ⟨(o', w), hm, rfl, rfl⟩

theorem mem_SINGULAR_TO_PLURAL {i o : List Char} {w : Int} :
    (o, w) ∈ SINGULAR_TO_PLURAL i ↔ o = pluralize i ∧ w = 0 := by
  simp [SINGULAR_TO_PLURAL, Prod.ext_iff, eq_comm]

theorem mem_optional_graph_negative {i o : List Char} {w : Int} :
    (o, w) ∈ optional_graph_negative i ↔
      (i = [] ∧ o = [] ∧ w = 0) ∨
      (i = str "-" ∧ o = str "negative: \"true\" " ∧ w = 0) := by
  simp only [optional_graph_negative, mem_optF, mem_concatF, mem_insertF, mem_crossF]
  constructor
  · rintro (⟨rfl, rfl, rfl⟩ |
      ⟨i1, i2, o1, w1, o2, w2, hi, ⟨rfl, rfl, rfl⟩, ⟨rfl, rfl, rfl⟩, rfl, rfl⟩)
    · exact Or.inl ⟨rfl, rfl, rfl⟩
    · exact Or.inr ⟨by simpa using hi.symm, rfl, rfl⟩
  · rintro (⟨rfl, rfl, rfl⟩ | ⟨rfl, rfl, rfl⟩)
    · exact Or.inl ⟨rfl, rfl, rfl⟩
    · exact Or.inr ⟨[], str "-", str "negative: ", 0, str "\"true\" ", 0, rfl,
        ⟨rfl, rfl, rfl⟩, ⟨rfl, rfl, rfl⟩, rfl, rfl⟩

/-- C10: for "-1kg" the sign combinator consumes the "-", the remaining
quantity "1" is excluded from the plural cardinal branch (whose quantity
passes through `NEMO_SIGMA - "1"`) and is taken by the singular
"1"→"one" branch, so the only accepting path yields `negative: "true"`,
integer "one" and the singular unit "kilogram" — never a plural unit. -/
theorem C10_minus_one_singular :
    subgraph_cardinal_plural (str "-1kg") = [] ∧
    subgraph_cardinal (str "-1kg") =
      [(str "cardinal \x7b negative: \"true\" integer: \"one\" \x7d units: \"kilogram\"",
        0)] := by
  constructor <;> decide

/-- C5 counterexample: the claimed output shape
`negative: "true" cardinal { integer: "twelve" } units: "kilograms"` is
not producible for the input "-12kg": the code inserts `cardinal { `
before composing the sign combinator, so no branch of the finished
alternation emits the negative field outside the cardinal block. -/
theorem C5_counterexample :
    str "negative: \"true\" cardinal \x7b integer: \"twelve\" \x7d units: \"kilograms\"" ∉
      (final_graph (str "-12kg")).map Prod.fst := by
  decide

/-- C5 amended: a single optional negative-sign combinator (defined once
and reused by composition in the decimal and the cardinal branches)
consumes a leading "-" and inserts `negative: "true"` into the numeric
block opened before it, so "-12kg" maps to
`cardinal { negative: "true" integer: "twelve" } units: "kilograms"`,
and an input without a leading "-" produces no negative field from this
combinator. -/
theorem C5_shared_negative_combinator :
    (∀ i o : List Char, ∀ w : Int,
      (o, w) ∈ optional_graph_negative i ↔
        (i = [] ∧ o = [] ∧ w = 0) ∨
        (i = str "-" ∧ o = str "negative: \"true\" " ∧ w = 0)) ∧
    subgraph_cardinal (str "-12kg") =
      [(str "cardinal \x7b negative: \"true\" integer: \"twelve\" \x7d units: \"kilograms\"",
        0)] ∧
    subgraph_cardinal (str "12kg") =
      [(str "cardinal \x7b integer: \"twelve\" \x7d units: \"kilograms\"", 0)] :=
  ⟨fun _ _ _ => mem_optional_graph_negative, by decide, by decide⟩

/-- C1: every accepting path of the cardinal-plus-unit subgraph splits its
input into an optional sign, an unsigned quantity, whitespace and a unit
part; when the quantity string is exactly "1" the output integer is the
literal substitution "one" and the unit goes through the singular unit
field, and when it differs from "1" the quantity is spelled by the
cardinal graph and the unit goes through the pluralized unit field.
Concretely "1kg" maps to `cardinal { integer: "one" } units: "kilogram"`
and "2kg" to `cardinal { integer: "two" } units: "kilograms"`. -/
theorem C1_singular_plural_agreement :
    (∀ i o : List Char, ∀ w : Int, (o, w) ∈ subgraph_cardinal i →
      ∃ i1 o1 q oq sp rest urest : List Char, ∃ w4 : Int,
        i = i1 ++ q ++ sp ++ rest ∧
        (∃ w1 : Int, (o1, w1) ∈ optional_graph_negative i1) ∧
        sp.all isWhiteChar = true ∧
        o = str "cardinal \x7b " ++ o1 ++ str "integer: \"" ++ oq ++ str "\"" ++
          str " \x7d " ++ urest ∧
        ((q ≠ str "1" ∧ (∃ wq : Int, (oq, wq) ∈ cardinal_graph q) ∧
            (urest, w4) ∈ unit_plural rest) ∨
          (q = str "1" ∧ oq = str "one" ∧ (urest, w4) ∈ unit_singular rest))) ∧
    subgraph_cardinal (str "1kg") =
      [(str "cardinal \x7b integer: \"one\" \x7d units: \"kilogram\"", 0)] ∧
    subgraph_cardinal (str "2kg") =
      [(str "cardinal \x7b integer: \"two\" \x7d units: \"kilograms\"", 0)] := by
  refine ⟨?_, by decide, by decide⟩
  intro i o w h
  rw [subgraph_cardinal] at h
  rcases mem_unionF.mp h with h | h
  · rw [subgraph_cardinal_plural] at h
    obtain ⟨iA, iR, oA, wA, oR, wR, hiA, hA, hR, rfl, rfl⟩ := mem_concatF.mp h
    obtain ⟨rfl, rfl, rfl⟩ := mem_insertF.mp hA
    obtain ⟨i1, iR2, o1, w1, oR2, wR2, hi1, h1, hR2, rfl, rfl⟩ := mem_concatF.mp hR
    obtain ⟨iB, iR3, oB, wB, oR3, wR3, hiB, hB, hR3, rfl, rfl⟩ := mem_concatF.mp hR2
    obtain ⟨rfl, rfl, rfl⟩ := mem_insertF.mp hB
    obtain ⟨q, iR4, oq, wq', oR4, wR4, hq', hQ, hR4, rfl, rfl⟩ := mem_concatF.mp hR3
    obtain ⟨m, wm1, wm2, hacc, hcard, rfl⟩ := mem_composeF.mp hQ
    obtain ⟨hpred, rfl, rfl⟩ := mem_accepIf.mp hacc
    obtain ⟨sp, iR5, osp, wsp, oR5, wR5, hsp', hS, hR5, rfl, rfl⟩ := mem_concatF.mp hR4
    obtain ⟨hw, rfl, rfl⟩ := mem_delete_space.mp hS
    obtain ⟨iC, iR6, oC, wC, oR6, wR6, hiC, hC, hR6, rfl, rfl⟩ := mem_concatF.mp hR5
    obtain ⟨rfl, rfl, rfl⟩ := mem_insertF.mp hC
    obtain ⟨iD, rest, oD, wD, urest, w4, hiD, hD, hU, rfl, rfl⟩ := mem_concatF.mp hR6
    obtain ⟨rfl, rfl, rfl⟩ := mem_insertF.mp hD
    subst hiA hi1 hiB hq' hsp' hiC hiD
    refine ⟨i1, o1, m, oq, sp, rest, urest, w4, by simp [List.append_assoc], ⟨w1, h1⟩,
      hw, by simp [List.append_assoc], Or.inl ⟨by simpa using hpred, ⟨wm2, hcard⟩, hU⟩⟩
  · rw [subgraph_cardinal_singular] at h
    obtain ⟨iA, iR, oA, wA, oR, wR, hiA, hA, hR, rfl, rfl⟩ := mem_concatF.mp h
    obtain ⟨rfl, rfl, rfl⟩ := mem_insertF.mp hA
    obtain ⟨i1, iR2, o1, w1, oR2, wR2, hi1, h1, hR2, rfl, rfl⟩ := mem_concatF.mp hR
    obtain ⟨iB, iR3, oB, wB, oR3, wR3, hiB, hB, hR3, rfl, rfl⟩ := mem_concatF.mp hR2
    obtain ⟨rfl, rfl, rfl⟩ := mem_insertF.mp hB
    obtain ⟨q, iR4, oq, wq', oR4, wR4, hq', hQ, hR4, rfl, rfl⟩ := mem_concatF.mp hR3
    obtain ⟨rfl, rfl, rfl⟩ := mem_crossF.mp hQ
    obtain ⟨sp, iR5, osp, wsp, oR5, wR5, hsp', hS, hR5, rfl, rfl⟩ := mem_concatF.mp hR4
    obtain ⟨hw, rfl, rfl⟩ := mem_delete_space.mp hS
    obtain ⟨iC, iR6, oC, wC, oR6, wR6, hiC, hC, hR6, rfl, rfl⟩ := mem_concatF.mp hR5
    obtain ⟨rfl, rfl, rfl⟩ := mem_insertF.mp hC
    obtain ⟨iD, rest, oD, wD, urest, w4, hiD, hD, hU, rfl, rfl⟩ := mem_concatF.mp hR6
    obtain ⟨rfl, rfl, rfl⟩ := mem_insertF.mp hD
    subst hiA hi1 hiB hq' hsp' hiC hiD
    refine ⟨i1, o1, str "1", str "one", sp, rest, urest, w4,
      by simp [List.append_assoc], ⟨w1, h1⟩, hw, by simp [List.append_assoc],
      Or.inr ⟨rfl, rfl, hU⟩⟩

/-- Witness for C1: the inversion applied to the concrete accepting path
of "2kg". -/
theorem C1_singular_plural_agreement_witness :
    ∃ i1 o1 q oq sp rest urest : List Char, ∃ w4 : Int,
      str "2kg" = i1 ++ q ++ sp ++ rest ∧
      (∃ w1 : Int, (o1, w1) ∈ optional_graph_negative i1) ∧
      sp.all isWhiteChar = true ∧
      str "cardinal \x7b integer: \"two\" \x7d units: \"kilograms\"" =
        str "cardinal \x7b " ++ o1 ++ str "integer: \"" ++ oq ++ str "\"" ++
          str " \x7d " ++ urest ∧
      ((q ≠ str "1" ∧ (∃ wq : Int, (oq, wq) ∈ cardinal_graph q) ∧
          (urest, w4) ∈ unit_plural rest) ∨
        (q = str "1" ∧ oq = str "one" ∧ (urest, w4) ∈ unit_singular rest)) :=
  C1_singular_plural_agreement.1 (str "2kg")
    (str "cardinal \x7b integer: \"two\" \x7d units: \"kilograms\"") 0 (by decide)

/-- C9: the case-folded unit variant accepts exactly the inputs made of a
non-empty uppercase-letter prefix followed by any run of letters whose
form with that prefix lowercased is in the unit table; "KG" and "Kg" are
accepted for the entry "kg", but "kG", whose uppercase letter follows a
lowercase one, is not. -/
theorem C9_casefolded_unit_variant :
    (∀ i o : List Char, ∀ w : Int, (o, w) ∈ graph_unit_cased i ↔
      ∃ p s : List Char, i = p ++ s ∧ p ≠ [] ∧ p.all Char.isUpper = true ∧
        s.all isAlphaChar = true ∧ (p.map Char.toLower ++ s, o) ∈ measurementsTable ∧
        w = 0) ∧
    graph_unit_cased (str "KG") = [(str "kilogram", 0)] ∧
    graph_unit_cased (str "Kg") = [(str "kilogram", 0)] ∧
    graph_unit_cased (str "kG") = [] := by
  refine ⟨?_, by decide, by decide, by decide⟩
  intro i o w
  rw [graph_unit_cased]
  constructor
  · intro h
    obtain ⟨m, w1, w2, hL, hT, rfl⟩ := mem_composeF.mp h
    rw [graph_unit_base] at hT
    obtain ⟨hm, rfl⟩ := mem_stringMap.mp hT
    obtain ⟨p, s, op, wp, os, ws, hi, hp, hs, rfl, rfl⟩ := mem_concatF.mp hL
    obtain ⟨hne, hup, rfl, rfl⟩ := mem_toLowerPlus.mp hp
    rw [charClassStar] at hs
    obtain ⟨hal, rfl, rfl⟩ := mem_accepIf.mp hs
    exact ⟨p, os, hi.symm, hne, hup, hal, hm, by simp⟩
  · rintro ⟨p, s, rfl, hne, hup, hal, hm, rfl⟩
    refine mem_composeF.mpr ⟨p.map Char.toLower ++ s, 0, 0, ?_, ?_, by simp⟩
    · exact mem_concatF.mpr ⟨p, s, p.map Char.toLower, 0, s, 0, rfl,
        mem_toLowerPlus.mpr ⟨hne, hup, rfl, rfl⟩,
        by rw [charClassStar]; exact mem_accepIf.mpr ⟨hal, rfl, rfl⟩, rfl, by simp⟩
    · rw [graph_unit_base]; exact mem_stringMap.mpr ⟨hm, rfl⟩

theorem graph_unit_raw_out {i o : List Char} {w : Int}
    (h : (o, w) ∈ graph_unit_raw i) :
    (∃ x, (x, o) ∈ measurementsTable) ∧ w = 0 := by
  rw [graph_unit_raw] at h
  rcases mem_unionF.mp h with h | h
  · rw [graph_unit_base] at h
    obtain ⟨hm, rfl⟩ := mem_stringMap.mp h
    exact ⟨⟨i, hm⟩, rfl⟩
  · rw [graph_unit_cased] at h
    obtain ⟨m, w1, w2, hL, hT, rfl⟩ := mem_composeF.mp h
    rw [graph_unit_base] at hT
    obtain ⟨hm, rfl⟩ := mem_stringMap.mp hT
    obtain ⟨p, s, op, wp, os, ws, hi, hp, hs, rfl, rfl⟩ := mem_concatF.mp hL
    obtain ⟨-, -, -, rfl⟩ := mem_toLowerPlus.mp hp
    rw [charClassStar] at hs
    obtain ⟨-, -, rfl⟩ := mem_accepIf.mp hs
    exact ⟨⟨_, hm⟩, by simp⟩

theorem graph_unit_no_degrees_out {i o : List Char} {w : Int}
    (h : (o, w) ∈ graph_unit_no_degrees i) :
    (∃ x, (x, o) ∈ measurementsTable) ∧ notDegrees o = true ∧ w = 0 := by
  rw [graph_unit_no_degrees] at h
  obtain ⟨m, w1, w2, hraw, hacc, rfl⟩ := mem_composeF.mp h
  obtain ⟨hnd, rfl, rfl⟩ := mem_accepIf.mp hacc
  obtain ⟨hx, rfl⟩ := graph_unit_raw_out hraw
  exact ⟨hx, hnd, by simp⟩

theorem graph_unit_plural_inv {i o : List Char} {w : Int}
    (h : (o, w) ∈ graph_unit_plural i) :
    o = str "degrees Celsius" ∨ o = str "degrees Fahrenheit" ∨
      ∃ t, (t, w) ∈ graph_unit_no_degrees i ∧ o = (pluralize t).map spaceToNbsp := by
  rw [graph_unit_plural] at h
  rcases mem_unionF.mp h with h | h
  · rw [graph_unit_plural_regular] at h
    obtain ⟨o', hc, rfl⟩ := mem_convertSpaceF.mp h
    obtain ⟨t, w1, w2, hnd, hstp, rfl⟩ := mem_composeF.mp hc
    obtain ⟨rfl, rfl⟩ := mem_SINGULAR_TO_PLURAL.mp hstp
    exact Or.inr (Or.inr ⟨t, by simpa using hnd, rfl⟩)
  · rcases mem_unionF.mp h with h | h
    · rw [graph_unit_plural_celsius] at h
      obtain ⟨m, w1, w2, -, hcr, rfl⟩ := mem_composeF.mp h
      obtain ⟨-, rfl, rfl⟩ := mem_crossF.mp hcr
      exact Or.inl rfl
    · rw [graph_unit_plural_fahrenheit] at h
      obtain ⟨m, w1, w2, -, hcr, rfl⟩ := mem_composeF.mp h
      obtain ⟨-, rfl, rfl⟩ := mem_crossF.mp hcr
      exact Or.inr (Or.inl rfl)

/-- C2: every accepted surface form whose canonical unit is "degree
Celsius" (or "degree Fahrenheit") is pluralized by the special-cased
branch to "degrees Celsius" (resp. "degrees Fahrenheit"), the form
"degree Celsiuses" is not producible (with either separator), and every
other plural output comes from the independent singular→plural mapping
applied after the two degree units are subtracted from the input
language. -/
theorem C2_degree_pluralization :
    (∀ i : List Char, ∀ w : Int,
      (str "degree Celsius", w) ∈ graph_unit_raw i →
        (str "degrees Celsius", w) ∈ graph_unit_plural i) ∧
    (∀ i : List Char, ∀ w : Int,
      (str "degree Fahrenheit", w) ∈ graph_unit_raw i →
        (str "degrees Fahrenheit", w) ∈ graph_unit_plural i) ∧
    (∀ i o : List Char, ∀ w : Int, (o, w) ∈ graph_unit_plural i →
      o ≠ str "degree Celsiuses" ∧ o ≠ str "degree" ++ nbsp :: str "Celsiuses") ∧
    (∀ i o : List Char, ∀ w : Int, (o, w) ∈ graph_unit_plural i →
      o = str "degrees Celsius" ∨ o = str "degrees Fahrenheit" ∨
      ∃ t, (t, w) ∈ graph_unit_no_degrees i ∧ o = (pluralize t).map spaceToNbsp) := by
  refine ⟨?_, ?_, ?_, fun i o w h => graph_unit_plural_inv h⟩
  · intro i w h
    rw [graph_unit_plural]
    refine mem_unionF.mpr (Or.inr (mem_unionF.mpr (Or.inl ?_)))
    rw [graph_unit_plural_celsius]
    refine mem_composeF.mpr ⟨str "degree Celsius", w, 0, ?_,
      mem_crossF.mpr ⟨rfl, rfl, rfl⟩, by simp⟩
    exact mem_composeF.mpr ⟨str "degree Celsius", w, 0, h,
      mem_accepF.mpr ⟨rfl, rfl, rfl⟩, by simp⟩
  · intro i w h
    rw [graph_unit_plural]
    refine mem_unionF.mpr (Or.inr (mem_unionF.mpr (Or.inr ?_)))
    rw [graph_unit_plural_fahrenheit]
    refine mem_composeF.mpr ⟨str "degree Fahrenheit", w, 0, ?_,
      mem_crossF.mpr ⟨rfl, rfl, rfl⟩, by simp⟩
    exact mem_composeF.mpr ⟨str "degree Fahrenheit", w, 0, h,
      mem_accepF.mpr ⟨rfl, rfl, rfl⟩, by simp⟩
  · intro i o w h
    rcases graph_unit_plural_inv h with rfl | rfl | ⟨t, hnd, rfl⟩
    · exact ⟨by decide, by decide⟩
    · exact ⟨by decide, by decide⟩
    · obtain ⟨⟨x, hx⟩, hndeg, -⟩ := graph_unit_no_degrees_out hnd
      simp only [measurementsTable, List.mem_cons, List.not_mem_nil, or_false,
        Prod.mk.injEq] at hx
      rcases hx with ⟨-, rfl⟩ | ⟨-, rfl⟩ | ⟨-, rfl⟩ | ⟨-, rfl⟩ | ⟨-, rfl⟩ | ⟨-, rfl⟩ | ⟨-, rfl⟩
      all_goals first
        | exact ⟨by decide, by decide⟩
        | (exfalso; revert hndeg; decide)

/-- Witness for C2: the table form "degree Celsius" is pluralized to
"degrees Celsius". -/
theorem C2_degree_pluralization_witness :
    (str "degrees Celsius", (0 : Int)) ∈ graph_unit_plural (str "degree Celsius") :=
  C2_degree_pluralization.1 (str "degree Celsius") 0 (by decide)

/-- C6 counterexample: the per-unit transducer `graph_unit2` rejects the
spelled surface form "per h" outright (its first component is the literal
cross "/"→"per"), so it does not map "per X" surface forms; only the
separate bare-quantity branch `unit_graph` accepts "per X". -/
theorem C6_counterexample : graph_unit2 (str "per h") = [] := by decide

/-- C6 amended: the per-unit transducer maps a "/X" surface form to the
output word "per" joined to the expanded unit by the inserted
non-breaking separator (distinct from the ordinary space), and the units
string produced for "10 km/h" contains "per hour" joined by that
separator. -/
theorem C6_per_unit_nbsp :
    (∀ i o : List Char, ∀ w : Int, (o, w) ∈ graph_unit2 i →
      ∃ sp u uo : List Char, i = str "/" ++ sp ++ u ∧ sp.all isWhiteChar = true ∧
        o = str "per" ++ (nbsp :: uo) ∧ ∃ wu : Int, (uo, wu) ∈ graph_unit u) ∧
    nbsp ≠ ' ' ∧
    graph_unit2 (str "/h") = [(str "per" ++ (nbsp :: str "hour"), 0)] ∧
    subgraph_cardinal (str "10 km/h") =
      [(str "cardinal \x7b integer: \"ten\" \x7d units: \"kilometers" ++
          (nbsp :: (str "per" ++ (nbsp :: str "hour\""))), 0)] ∧
    (∃ a b : List Char,
      str "cardinal \x7b integer: \"ten\" \x7d units: \"kilometers" ++
          (nbsp :: (str "per" ++ (nbsp :: str "hour\""))) =
        a ++ (str "per" ++ (nbsp :: str "hour")) ++ b) := by
  refine ⟨?_, by decide, by decide, by decide,
    ⟨str "cardinal \x7b integer: \"ten\" \x7d units: \"kilometers" ++ [nbsp],
      str "\"", by decide⟩⟩
  intro i o w h
  rw [graph_unit2] at h
  obtain ⟨i1, i2, o1, w1, o2, w2, hi, hcr, hR, rfl, rfl⟩ := mem_concatF.mp h
  obtain ⟨rfl, rfl, rfl⟩ := mem_crossF.mp hcr
  obtain ⟨sp, i3, osp, wsp, oR3, wR3, hsp, hS, hR3, rfl, rfl⟩ := mem_concatF.mp hR
  obtain ⟨hw, rfl, rfl⟩ := mem_delete_space.mp hS
  obtain ⟨iN, u, oN, wN, uo, wu, hiN, hN, hU, rfl, rfl⟩ := mem_concatF.mp hR3
  obtain ⟨rfl, rfl, rfl⟩ := mem_insertF.mp hN
  subst hi hsp hiN
  exact ⟨sp, u, uo, by simp [List.append_assoc], hw, by simp, wu, hU⟩

/-- Witness for C6: the inversion applied to the accepting path of "/h". -/
theorem C6_per_unit_nbsp_witness :
    ∃ sp u uo : List Char,
      str "/h" = str "/" ++ sp ++ u ∧ sp.all isWhiteChar = true ∧
      str "per" ++ (nbsp :: str "hour") = str "per" ++ (nbsp :: uo) ∧
      ∃ wu : Int, (uo, wu) ∈ graph_unit u :=
  C6_per_unit_nbsp.1 (str "/h") (str "per" ++ (nbsp :: str "hour")) 0 (by decide)

/-- C4 counterexample: the math-equation branch does not accept
"2 plus 2 equals 4": its equality sign is the literal cross "="→"equals",
so the spelled word "equals" in the input cannot be consumed, and the
branch yields no accepting path for this input. -/
theorem C4_counterexample : math_branch (str "2 plus 2 equals 4") = [] := by decide

/-- C4 amended: the math-equation branch accepts symbolic inline equations
"A op B = C" (operator from the symbol lexicon, a literal "="), with the
token delimiters either consumed or inserted, and emits a single
`units: "math"` token whose integer field holds the verbalized equation
text (numbers spelled by the cardinal graph, the operator worded, "=" as
"equals"), with `preserve_order: true`; so both "2+2=4" and "2 + 2 = 4"
map to `units: "math" cardinal { integer: "two plus two equals four" }
preserve_order: true`. -/
theorem C4_math_equation :
    math_branch (str "2+2=4") =
      [(str "units: \"math\" cardinal \x7b integer: \"two plus two equals four\" \x7d preserve_order: true",
        0)] ∧
    math_branch (str "2 + 2 = 4") =
      [(str "units: \"math\" cardinal \x7b integer: \"two plus two equals four\" \x7d preserve_order: true",
        0)] := by
  constructor <;> decide

theorem address_num_unweighted_w0 {i o : List Char} {w : Int}
    (h : (o, w) ∈ address_num_unweighted i) : w = 0 := by
  rw [address_num_unweighted] at h
  obtain ⟨i1, i2, o1, w1, o2, w2, -, h1, h2, -, rfl⟩ := mem_concatF.mp h
  obtain ⟨m, wa, wb, ha, hb, rfl⟩ := mem_composeF.mp h1
  rw [charClassRange] at ha
  obtain ⟨-, -, rfl⟩ := mem_accepIf.mp ha
  rw [graph_hundred_component_at_least_one_none_zero_digit] at hb
  obtain ⟨-, rfl⟩ := mem_stringMap.mp hb
  obtain ⟨i3, i4, o3, w3, o4, w4, -, h3, h4, -, rfl⟩ := mem_concatF.mp h2
  rw [insert_space] at h3
  obtain ⟨-, -, rfl⟩ := mem_insertF.mp h3
  obtain ⟨m2, wc, wd, hc, hd, rfl⟩ := mem_composeF.mp h4
  rw [charClassRange] at hc
  obtain ⟨-, -, rfl⟩ := mem_accepIf.mp hc
  obtain ⟨i5, i6, o5, w5, o6, w6, -, h5, h6, -, rfl⟩ := mem_concatF.mp hd
  rw [graph_hundred_component_at_least_one_none_zero_digit] at h6
  obtain ⟨-, rfl⟩ := mem_stringMap.mp h6
  rcases mem_optF.mp h5 with ⟨-, -, rfl⟩ | h5
  · simp
  · obtain ⟨-, -, rfl⟩ := mem_crossF.mp h5
    simp

/-- C3: every accepting path of the 3–4 digit split-spelling house-number
path carries cost -0.001 (here -1 in thousandths) and only exists for
3–4 digit runs, every cardinal-graph path carries cost 0, so whenever
both accept the same input the split path has strictly lower cost and
minimum-cost decoding selects it; the cardinal fallback remains an
accepting path of the house-number union for every input the cardinal
graph accepts, e.g. the 5-digit run "12345". -/
theorem C3_address_split_bias :
    (∀ i o : List Char, ∀ w : Int, (o, w) ∈ address_num_split i →
      w = -1 ∧ 3 ≤ i.length ∧ i.length ≤ 4 ∧ i.all isDigitChar = true) ∧
    (∀ i o : List Char, ∀ w : Int, (o, w) ∈ cardinal_graph i → w = 0) ∧
    (∀ i o1 o2 : List Char, ∀ w1 w2 : Int,
      (o1, w1) ∈ address_num_split i → (o2, w2) ∈ cardinal_graph i → w1 < w2) ∧
    (∀ i : List Char, ∀ q : List Char × Int,
      q ∈ cardinal_graph i → q ∈ address_num i) ∧
    (str "twelve thousand three hundred forty five", (0 : Int)) ∈
      address_num (str "12345") := by
  have h1 : ∀ i o : List Char, ∀ w : Int, (o, w) ∈ address_num_split i →
      w = -1 ∧ 3 ≤ i.length ∧ i.length ≤ 4 ∧ i.all isDigitChar = true := by
    intro i o w h
    rw [address_num_split] at h
    obtain ⟨w', hcomp, rfl⟩ := mem_addWeightF.mp h
    obtain ⟨m, wr, wi, hrange, hinner, rfl⟩ := mem_composeF.mp hcomp
    rw [charClassRange] at hrange
    obtain ⟨hpred, rfl, rfl⟩ := mem_accepIf.mp hrange
    simp only [Bool.and_eq_true, decide_eq_true_eq] at hpred
    have hw0 := address_num_unweighted_w0 hinner
    exact ⟨by simp [hw0], hpred.1.1, hpred.1.2, hpred.2⟩
  have h2 : ∀ i o : List Char, ∀ w : Int, (o, w) ∈ cardinal_graph i → w = 0 := by
    intro i o w h
    rw [cardinal_graph] at h
    exact (mem_stringMap.mp h).2
  refine ⟨h1, h2, ?_, ?_, by decide⟩
  · intro i o1 o2 w1 w2 hs hc
    rw [(h1 i o1 w1 hs).1, h2 i o2 w2 hc]
    decide
  · intro i q hq
    rw [address_num]
    exact mem_unionF.mpr (Or.inr hq)

/-- Witness for C3: on "123", accepted by both paths, the split path's
cost -1 is strictly below the cardinal path's cost 0. -/
theorem C3_address_split_bias_witness : (-1 : Int) < 0 :=
  C3_address_split_bias.2.2.1 (str "123") (str "one twenty three")
    (str "one hundred twenty three") (-1) 0 (by decide) (by decide)

theorem cleanF_unionF {a b : Fst} (ha : CleanF a) (hb : CleanF b) :
    CleanF (unionF a b) := by
  intro i o w h
  rcases mem_unionF.mp h with h | h
  · exact ha i o w h
  · exact hb i o w h

theorem cleanF_concatF {a b : Fst} (ha : CleanF a) (hb : CleanF b) :
    CleanF (concatF a b) := by
  intro i o w h
  obtain ⟨i1, i2, o1, w1, o2, w2, -, h1, h2, rfl, -⟩ := mem_concatF.mp h
  intro hq
  rcases List.mem_append.mp hq with hq | hq
  · exact ha i1 o1 w1 h1 hq
  · exact hb i2 o2 w2 h2 hq

theorem cleanF_composeF {a b : Fst} (hb : CleanF b) : CleanF (composeF a b) := by
  intro i o w h
  obtain ⟨m, w1, w2, -, h2, -⟩ := mem_composeF.mp h
  exact hb m o w2 h2

theorem cleanF_optF {a : Fst} (ha : CleanF a) : CleanF (optF a) := by
  intro i o w h
  rcases mem_optF.mp h with ⟨-, rfl, -⟩ | h
  · simp
  · exact ha i o w h

theorem cleanF_addWeightF {c : Int} {a : Fst} (ha : CleanF a) :
    CleanF (addWeightF c a) := by
  intro i o w h
  obtain ⟨w', h', -⟩ := mem_addWeightF.mp h
  exact ha i o w' h'

theorem cleanF_crossF {x y : List Char} (hy : '"' ∉ y) : CleanF (crossF x y) := by
  intro i o w h
  obtain ⟨-, rfl, -⟩ := mem_crossF.mp h
  exact hy

theorem cleanF_insertF {y : List Char} (hy : '"' ∉ y) : CleanF (insertF y) :=
  cleanF_crossF hy

theorem cleanF_accepF {x : List Char} (hx : '"' ∉ x) : CleanF (accepF x) :=
  cleanF_crossF hx

theorem all_no_quote {p : Char → Bool} (hp : p '"' = false) {l : List Char}
    (hl : l.all p = true) : '"' ∉ l := by
  intro hq
  have := List.all_eq_true.mp hl _ hq
  rw [hp] at this
  exact absurd this (by simp)

theorem cleanF_charClassPlus {p : Char → Bool} (hp : p '"' = false) :
    CleanF (charClassPlus p) := by
  intro i o w h
  rw [charClassPlus] at h
  obtain ⟨hc, rfl, -⟩ := mem_accepIf.mp h
  simp only [Bool.and_eq_true] at hc
  exact all_no_quote hp hc.2

theorem cleanF_charClassStar {p : Char → Bool} (hp : p '"' = false) :
    CleanF (charClassStar p) := by
  intro i o w h
  rw [charClassStar] at h
  obtain ⟨hc, rfl, -⟩ := mem_accepIf.mp h
  exact all_no_quote hp hc

theorem cleanF_charClassRange {p : Char → Bool} {lo hi : Nat} (hp : p '"' = false) :
    CleanF (charClassRange p lo hi) := by
  intro i o w h
  rw [charClassRange] at h
  obtain ⟨hc, rfl, -⟩ := mem_accepIf.mp h
  simp only [Bool.and_eq_true] at hc
  exact all_no_quote hp hc.2

theorem cleanF_stringMap {t : List (List Char × List Char)}
    (ht : ∀ pq ∈ t, '"' ∉ pq.2) : CleanF (stringMap t) := by
  intro i o w h
  obtain ⟨hm, -⟩ := mem_stringMap.mp h
  exact ht (i, o) hm

theorem cleanF_delete_space : CleanF delete_space := by
  intro i o w h
  obtain ⟨-, rfl, -⟩ := mem_delete_space.mp h
  simp

theorem no_quote_digitWord (c : Char) : '"' ∉ digitWord c := by
  unfold digitWord
  split_ifs <;> decide

theorem no_quote_spellDigits (l : List Char) : '"' ∉ spellDigits l := by
  induction l with
  | nil => simp [spellDigits]
  | cons c cs ih =>
      cases cs with
      | nil => simpa [spellDigits] using no_quote_digitWord c
      | cons d ds =>
          have e : spellDigits (c :: d :: ds) = digitWord c ++ ' ' :: spellDigits (d :: ds) := rfl
          rw [e]
          intro hq
          rcases List.mem_append.mp hq with hq | hq
          · exact no_quote_digitWord c hq
          · rcases List.mem_cons.mp hq with hq | hq
            · exact absurd hq (by decide)
            · exact ih hq

theorem cleanF_single_digits : CleanF single_digits_graph := by
  intro i o w h
  rw [single_digits_graph] at h
  by_cases hc : !i.isEmpty && i.all Char.isDigit
  · rw [if_pos hc] at h
    simp only [List.mem_singleton, Prod.mk.injEq] at h
    rw [h.1]
    exact no_quote_spellDigits i
  · rw [if_neg hc] at h
    exact absurd h (by simp)

theorem cleanF_convertSpaceF {a : Fst} (ha : CleanF a) : CleanF (convertSpaceF a) := by
  intro i o w h
  obtain ⟨o', h', rfl⟩ := mem_convertSpaceF.mp h
  intro hq
  obtain ⟨c, hc, he⟩ := List.mem_map.mp hq
  rw [spaceToNbsp] at he
  split_ifs at he
  · exact absurd he (by decide)
  · subst he; exact ha i o' w h' hc

theorem no_quote_pluralize {t : List Char} (h : '"' ∉ t) : '"' ∉ pluralize t := by
  rw [pluralize]
  split_ifs <;> (intro hq; rcases List.mem_append.mp hq with hq | hq)
  · exact h hq
  · exact absurd hq (by decide)
  · exact h hq
  · exact absurd hq (by decide)

theorem no_quote_mapSpace {l : List Char} (h : '"' ∉ l) : '"' ∉ l.map spaceToNbsp := by
  intro hq
  obtain ⟨c, hc, he⟩ := List.mem_map.mp hq
  rw [spaceToNbsp] at he
  split_ifs at he
  · exact absurd he (by decide)
  · subst he; exact h hc

theorem clean_cardinal_graph : CleanF cardinal_graph := by
  rw [cardinal_graph]; exact cleanF_stringMap (by decide)

theorem clean_graph_unit_raw : CleanF graph_unit_raw := by
  intro i o w h
  obtain ⟨⟨x, hx⟩, -⟩ := graph_unit_raw_out h
  have ht : ∀ pq ∈ measurementsTable, '"' ∉ pq.2 := by decide
  exact ht (x, o) hx

theorem clean_graph_unit : CleanF graph_unit := by
  rw [graph_unit]; exact cleanF_convertSpaceF clean_graph_unit_raw

theorem clean_graph_unit_plural : CleanF graph_unit_plural := by
  intro i o w h
  rcases graph_unit_plural_inv h with rfl | rfl | ⟨t, hnd, rfl⟩
  · decide
  · decide
  · obtain ⟨⟨x, hx⟩, -, -⟩ := graph_unit_no_degrees_out hnd
    have ht : ∀ pq ∈ measurementsTable, '"' ∉ pq.2 := by decide
    exact no_quote_mapSpace (no_quote_pluralize (ht (x, t) hx))

theorem clean_graph_unit2 : CleanF graph_unit2 := by
  rw [graph_unit2]
  exact cleanF_concatF (cleanF_crossF (by decide))
    (cleanF_concatF cleanF_delete_space
      (cleanF_concatF (cleanF_insertF (by decide)) clean_graph_unit))

theorem clean_optional_graph_unit2 : CleanF optional_graph_unit2 := by
  rw [optional_graph_unit2]
  exact cleanF_optF (cleanF_concatF cleanF_delete_space
    (cleanF_concatF (cleanF_insertF (by decide)) clean_graph_unit2))

theorem clean_delimiter : CleanF delimiter := by
  rw [delimiter]
  exact cleanF_unionF (cleanF_accepF (by decide)) (cleanF_insertF (by decide))

theorem clean_math_core : CleanF math_core := by
  have hca : CleanF (unionF cardinal_graph (charClassRange isAlphaChar 1 1)) :=
    cleanF_unionF clean_cardinal_graph (cleanF_charClassRange (by decide))
  have hops : CleanF math_operations := by
    rw [math_operations]; exact cleanF_stringMap (by decide)
  rw [math_core]
  exact cleanF_concatF hca (cleanF_concatF clean_delimiter (cleanF_concatF hops
    (cleanF_concatF (cleanF_unionF clean_delimiter (cleanF_charClassRange (by decide)))
      (cleanF_concatF clean_cardinal_graph (cleanF_concatF clean_delimiter
        (cleanF_concatF (cleanF_crossF (by decide))
          (cleanF_concatF clean_delimiter hca)))))))

theorem clean_hundred : CleanF graph_hundred_component_at_least_one_none_zero_digit := by
  rw [graph_hundred_component_at_least_one_none_zero_digit]
  exact cleanF_stringMap (by decide)

theorem clean_address_num : CleanF address_num := by
  have hins : CleanF insert_space := by
    rw [insert_space]; exact cleanF_insertF (by decide)
  rw [address_num, address_num_split, address_num_unweighted]
  exact cleanF_unionF
    (cleanF_addWeightF (cleanF_composeF (cleanF_concatF (cleanF_composeF clean_hundred)
      (cleanF_concatF hins (cleanF_composeF (cleanF_concatF
        (cleanF_optF (cleanF_crossF (by decide))) clean_hundred))))))
    clean_cardinal_graph

theorem clean_direction : CleanF direction := by
  rw [direction, direction_core]
  exact cleanF_optF (cleanF_addWeightF (cleanF_concatF (cleanF_accepF (by decide))
    (cleanF_concatF
      (cleanF_unionF (cleanF_crossF (by decide))
        (cleanF_unionF (cleanF_crossF (by decide))
          (cleanF_unionF (cleanF_crossF (by decide)) (cleanF_crossF (by decide)))))
      (cleanF_optF (cleanF_crossF (by decide))))))

theorem clean_address_words : CleanF address_words := by
  rw [address_words]
  refine cleanF_concatF (cleanF_accepF (by decide)) (cleanF_concatF
    (cleanF_unionF (cleanF_optF ?_) (cleanF_charClassPlus (by decide)))
    (cleanF_concatF (cleanF_accepF (by decide))
      (cleanF_concatF (cleanF_charClassStar (by decide)) ?_)))
  · rw [ordinal_num]; exact cleanF_stringMap (by decide)
  · rw [address_words_formats]; exact cleanF_stringMap (by decide)

theorem clean_city : CleanF city := by
  rw [city]
  exact cleanF_optF (cleanF_concatF (cleanF_accepF (by decide))
    (cleanF_concatF (cleanF_accepF (by decide)) (cleanF_charClassPlus (by decide))))

theorem clean_state : CleanF state := by
  rw [state]
  exact cleanF_optF (cleanF_concatF (cleanF_accepF (by decide))
    (cleanF_concatF (cleanF_accepF (by decide)) (cleanF_stringMap (by decide))))

theorem clean_zip_code : CleanF zip_code := by
  rw [zip_code]
  exact cleanF_optF (cleanF_addWeightF (cleanF_concatF
    (cleanF_optF (cleanF_accepF (by decide)))
    (cleanF_concatF (cleanF_accepF (by decide))
      (cleanF_composeF cleanF_single_digits))))

theorem clean_address_graph : CleanF (get_address_graph false) := by
  have e : get_address_graph false = address_inner := rfl
  rw [e, address_inner]
  exact cleanF_concatF clean_address_num (cleanF_concatF clean_direction
    (cleanF_concatF clean_address_words (cleanF_optF (cleanF_addWeightF
      (cleanF_concatF clean_city (cleanF_concatF clean_state clean_zip_code))))))

theorem unit_plural_shape {i o : List Char} {w : Int} (h : (o, w) ∈ unit_plural i) :
    ∃ u, o = str "units: \"" ++ (u ++ str "\"") ∧ '"' ∉ u := by
  rw [unit_plural] at h
  obtain ⟨i1, i2, o1, w1, o2, w2, -, hIns, hR, rfl, rfl⟩ := mem_concatF.mp h
  obtain ⟨rfl, rfl, rfl⟩ := mem_insertF.mp hIns
  obtain ⟨i3, i4, u, w3, oQ, w4, -, hC, hQ, rfl, rfl⟩ := mem_concatF.mp hR
  obtain ⟨rfl, rfl, rfl⟩ := mem_insertF.mp hQ
  exact ⟨u, rfl,
    cleanF_unionF (cleanF_concatF clean_graph_unit_plural clean_optional_graph_unit2)
      clean_graph_unit2 i3 u w3 hC⟩

theorem unit_singular_shape {i o : List Char} {w : Int} (h : (o, w) ∈ unit_singular i) :
    ∃ u, o = str "units: \"" ++ (u ++ str "\"") ∧ '"' ∉ u := by
  rw [unit_singular] at h
  obtain ⟨i1, i2, o1, w1, o2, w2, -, hIns, hR, rfl, rfl⟩ := mem_concatF.mp h
  obtain ⟨rfl, rfl, rfl⟩ := mem_insertF.mp hIns
  obtain ⟨i3, i4, u, w3, oQ, w4, -, hC, hQ, rfl, rfl⟩ := mem_concatF.mp hR
  obtain ⟨rfl, rfl, rfl⟩ := mem_insertF.mp hQ
  exact ⟨u, rfl,
    cleanF_unionF (cleanF_concatF clean_graph_unit clean_optional_graph_unit2)
      clean_graph_unit2 i3 u w3 hC⟩

theorem wf_decimalTable : ∀ pq ∈ decimalTable, WFFields pq.2 := by
  intro pq hm
  simp only [decimalTable, List.mem_cons, List.not_mem_nil, or_false] at hm
  rcases hm with rfl | rfl
  · exact WFFields.single _
      (WFField.leaf (str "fractional_part") (str "five") (by decide) (by decide))
  · exact WFFields.cons _ _
      (WFField.leaf (str "integer_part") (str "four") (by decide) (by decide))
      (WFFields.single _
        (WFField.leaf (str "fractional_part") (str "five") (by decide) (by decide)))

theorem wf_fractionTable : ∀ pq ∈ fractionTable, WFFields pq.2 := by
  intro pq hm
  simp only [fractionTable, List.mem_cons, List.not_mem_nil, or_false] at hm
  rcases hm with rfl
  exact WFFields.cons _ _
    (WFField.leaf (str "numerator") (str "two") (by decide) (by decide))
    (WFFields.single _
      (WFField.leaf (str "denominator") (str "three") (by decide) (by decide)))

theorem wf_subgraph_decimal : ∀ i o : List Char, ∀ w : Int,
    (o, w) ∈ subgraph_decimal i → WFFields o := by
  intro i o w h
  rw [subgraph_decimal] at h
  obtain ⟨i1, i2, o1, w1, o2, w2, -, hA, hR, rfl, rfl⟩ := mem_concatF.mp h
  obtain ⟨rfl, rfl, rfl⟩ := mem_insertF.mp hA
  obtain ⟨i3, i4, negs, w3, oR2, w4, -, hneg, hR2, rfl, rfl⟩ := mem_concatF.mp hR
  obtain ⟨i5, i6, d, w5, oR3, w6, -, hd, hR3, rfl, rfl⟩ := mem_concatF.mp hR2
  rw [final_graph_wo_negative] at hd
  obtain ⟨hdm, rfl⟩ := mem_stringMap.mp hd
  obtain ⟨i7, i8, osp, w7, oR4, w8, -, hsp, hR4, rfl, rfl⟩ := mem_concatF.mp hR3
  obtain ⟨-, rfl, rfl⟩ := mem_delete_space.mp hsp
  obtain ⟨i9, i10, ob, w9, uo, w10, -, hb, hu, rfl, rfl⟩ := mem_concatF.mp hR4
  obtain ⟨rfl, rfl, rfl⟩ := mem_insertF.mp hb
  obtain ⟨u, rfl, hqu⟩ := unit_plural_shape hu
  have hd' : WFFields d := wf_decimalTable _ hdm
  rcases mem_optional_graph_negative.mp hneg with ⟨-, rfl, -⟩ | ⟨-, rfl, -⟩
  · have e : str "decimal \x7b " ++
        ([] ++ (d ++ ([] ++ (str " \x7d " ++ (str "units: \"" ++ (u ++ str "\"")))))) =
        (str "decimal" ++ str " \x7b " ++ d ++ str " \x7d") ++
          ' ' :: (str "units" ++ str ": \"" ++ u ++ str "\"") := by
      simp only [List.append_assoc, List.cons_append, List.nil_append]; rfl
    rw [e]
    exact WFFields.cons _ _ (WFField.block _ _ (by decide) hd')
      (WFFields.single _ (WFField.leaf _ _ (by decide) hqu))
  · have e : str "decimal \x7b " ++
        (str "negative: \"true\" " ++
          (d ++ ([] ++ (str " \x7d " ++ (str "units: \"" ++ (u ++ str "\"")))))) =
        (str "decimal" ++ str " \x7b " ++ (str "negative: \"true\"" ++ ' ' :: d) ++
            str " \x7d") ++
          ' ' :: (str "units" ++ str ": \"" ++ u ++ str "\"") := by
      simp only [List.append_assoc, List.cons_append, List.nil_append]; rfl
    rw [e]
    exact WFFields.cons _ _ (WFField.block _ _ (by decide)
        (WFFields.cons _ _
          (WFField.leaf (str "negative") (str "true") (by decide) (by decide)) hd'))
      (WFFields.single _ (WFField.leaf _ _ (by decide) hqu))

theorem wf_cardinal_units (negs oq u : List Char)
    (hn : negs = [] ∨ negs = str "negative: \"true\" ")
    (hq : '"' ∉ oq) (hu : '"' ∉ u) :
    WFFields (str "cardinal \x7b " ++ (negs ++ (str "integer: \"" ++ (oq ++
      ([] ++ (str "\"" ++ (str " \x7d " ++ (str "units: \"" ++ (u ++ str "\""))))))))) := by
  rcases hn with rfl | rfl
  · have e : str "cardinal \x7b " ++ ([] ++ (str "integer: \"" ++ (oq ++
        ([] ++ (str "\"" ++ (str " \x7d " ++ (str "units: \"" ++ (u ++ str "\"")))))))) =
        (str "cardinal" ++ str " \x7b " ++ (str "integer" ++ str ": \"" ++ oq ++ str "\"") ++
            str " \x7d") ++
          ' ' :: (str "units" ++ str ": \"" ++ u ++ str "\"") := by
      simp only [List.append_assoc, List.cons_append, List.nil_append]; rfl
    rw [e]
    exact WFFields.cons _ _
      (WFField.block _ _ (by decide) (WFFields.single _ (WFField.leaf _ _ (by decide) hq)))
      (WFFields.single _ (WFField.leaf _ _ (by decide) hu))
  · have e : str "cardinal \x7b " ++ (str "negative: \"true\" " ++ (str "integer: \"" ++ (oq ++
        ([] ++ (str "\"" ++ (str " \x7d " ++ (str "units: \"" ++ (u ++ str "\"")))))))) =
        (str "cardinal" ++ str " \x7b " ++
            (str "negative: \"true\"" ++
              ' ' :: (str "integer" ++ str ": \"" ++ oq ++ str "\"")) ++ str " \x7d") ++
          ' ' :: (str "units" ++ str ": \"" ++ u ++ str "\"") := by
      simp only [List.append_assoc, List.cons_append, List.nil_append]; rfl
    rw [e]
    exact WFFields.cons _ _
      (WFField.block _ _ (by decide)
        (WFFields.cons _ _
          (WFField.leaf (str "negative") (str "true") (by decide) (by decide))
          (WFFields.single _ (WFField.leaf _ _ (by decide) hq))))
      (WFFields.single _ (WFField.leaf _ _ (by decide) hu))

theorem wf_subgraph_cardinal : ∀ i o : List Char, ∀ w : Int,
    (o, w) ∈ subgraph_cardinal i → WFFields o := by
  intro i o w h
  rw [subgraph_cardinal] at h
  rcases mem_unionF.mp h with h | h
  · rw [subgraph_cardinal_plural] at h
    obtain ⟨i1, i2, o1, w1, o2, w2, -, hA, hR, rfl, rfl⟩ := mem_concatF.mp h
    obtain ⟨rfl, rfl, rfl⟩ := mem_insertF.mp hA
    obtain ⟨i3, i4, negs, w3, oR2, w4, -, hneg, hR2, rfl, rfl⟩ := mem_concatF.mp hR
    obtain ⟨i5, i6, oB, w5, oR3, w6, -, hB, hR3, rfl, rfl⟩ := mem_concatF.mp hR2
    obtain ⟨rfl, rfl, rfl⟩ := mem_insertF.mp hB
    obtain ⟨i7, i8, oq, w7, oR4, w8, -, hq, hR4, rfl, rfl⟩ := mem_concatF.mp hR3
    obtain ⟨m, wa, wb, -, hcard, -⟩ := mem_composeF.mp hq
    obtain ⟨i9, i10, osp, w9, oR5, w10, -, hsp, hR5, rfl, rfl⟩ := mem_concatF.mp hR4
    obtain ⟨-, rfl, rfl⟩ := mem_delete_space.mp hsp
    obtain ⟨i11, i12, oC, w11, oR6, w12, -, hC, hR6, rfl, rfl⟩ := mem_concatF.mp hR5
    obtain ⟨rfl, rfl, rfl⟩ := mem_insertF.mp hC
    obtain ⟨i13, i14, oD, w13, uo, w14, -, hD, hu, rfl, rfl⟩ := mem_concatF.mp hR6
    obtain ⟨rfl, rfl, rfl⟩ := mem_insertF.mp hD
    obtain ⟨u, rfl, hqu⟩ := unit_plural_shape hu
    have hne := mem_optional_graph_negative.mp hneg
    exact wf_cardinal_units negs oq u
      (by rcases hne with ⟨-, rfl, -⟩ | ⟨-, rfl, -⟩; exacts [Or.inl rfl, Or.inr rfl])
      (clean_cardinal_graph m oq wb hcard) hqu
  · rw [subgraph_cardinal_singular] at h
    obtain ⟨i1, i2, o1, w1, o2, w2, -, hA, hR, rfl, rfl⟩ := mem_concatF.mp h
    obtain ⟨rfl, rfl, rfl⟩ := mem_insertF.mp hA
    obtain ⟨i3, i4, negs, w3, oR2, w4, -, hneg, hR2, rfl, rfl⟩ := mem_concatF.mp hR
    obtain ⟨i5, i6, oB, w5, oR3, w6, -, hB, hR3, rfl, rfl⟩ := mem_concatF.mp hR2
    obtain ⟨rfl, rfl, rfl⟩ := mem_insertF.mp hB
    obtain ⟨i7, i8, oq, w7, oR4, w8, -, hq, hR4, rfl, rfl⟩ := mem_concatF.mp hR3
    obtain ⟨-, rfl, rfl⟩ := mem_crossF.mp hq
    obtain ⟨i9, i10, osp, w9, oR5, w10, -, hsp, hR5, rfl, rfl⟩ := mem_concatF.mp hR4
    obtain ⟨-, rfl, rfl⟩ := mem_delete_space.mp hsp
    obtain ⟨i11, i12, oC, w11, oR6, w12, -, hC, hR6, rfl, rfl⟩ := mem_concatF.mp hR5
    obtain ⟨rfl, rfl, rfl⟩ := mem_insertF.mp hC
    obtain ⟨i13, i14, oD, w13, uo, w14, -, hD, hu, rfl, rfl⟩ := mem_concatF.mp hR6
    obtain ⟨rfl, rfl, rfl⟩ := mem_insertF.mp hD
    obtain ⟨u, rfl, hqu⟩ := unit_singular_shape hu
    have hne := mem_optional_graph_negative.mp hneg
    exact wf_cardinal_units negs (str "one") u
      (by rcases hne with ⟨-, rfl, -⟩ | ⟨-, rfl, -⟩; exacts [Or.inl rfl, Or.inr rfl])
      (by decide) hqu

theorem wf_unit_graph : ∀ i o : List Char, ∀ w : Int,
    (o, w) ∈ unit_graph i → WFFields o := by
  intro i o w h
  rw [unit_graph] at h
  obtain ⟨i1, i2, o1, w1, o2, w2, -, hA, hR, rfl, rfl⟩ := mem_concatF.mp h
  obtain ⟨rfl, rfl, rfl⟩ := mem_insertF.mp hA
  obtain ⟨i3, i4, operW, w3, oR2, w4, -, hper, hR2, rfl, rfl⟩ := mem_concatF.mp hR
  have hperE : operW = str "per" := by
    rcases mem_unionF.mp hper with hp | hp
    · exact (mem_crossF.mp hp).2.1
    · exact (mem_crossF.mp hp).2.1
  subst hperE
  obtain ⟨i5, i6, osp, w5, oR3, w6, -, hsp, hR3, rfl, rfl⟩ := mem_concatF.mp hR2
  obtain ⟨-, rfl, rfl⟩ := mem_delete_space.mp hsp
  obtain ⟨i7, i8, oN, w7, oR4, w8, -, hN, hR4, rfl, rfl⟩ := mem_concatF.mp hR3
  obtain ⟨rfl, rfl, rfl⟩ := mem_insertF.mp hN
  obtain ⟨i9, i10, g, w9, oE, w10, -, hg, hE, rfl, rfl⟩ := mem_concatF.mp hR4
  obtain ⟨rfl, rfl, rfl⟩ := mem_insertF.mp hE
  have hgq : '"' ∉ g := clean_graph_unit i9 g w9 hg
  have e : str "cardinal \x7b integer: \"-\" \x7d units: \"" ++
      (str "per" ++ ([] ++ ([nbsp] ++ (g ++ str "\" preserve_order: true")))) =
      (str "cardinal" ++ str " \x7b " ++
          (str "integer" ++ str ": \"" ++ str "-" ++ str "\"") ++ str " \x7d") ++
        ' ' :: ((str "units" ++ str ": \"" ++ (str "per" ++ nbsp :: g) ++ str "\"") ++
          ' ' :: str "preserve_order: true") := by
    simp only [List.append_assoc, List.cons_append, List.nil_append]; rfl
  rw [e]
  refine WFFields.cons _ _
    (WFField.block _ _ (by decide)
      (WFFields.single _ (WFField.leaf _ _ (by decide) (by decide))))
    (WFFields.cons _ _ (WFField.leaf _ _ (by decide) ?_)
      (WFFields.single _ WFField.flag))
  intro hq
  rcases List.mem_append.mp hq with hq | hq
  · exact absurd hq (by decide)
  · rcases List.mem_cons.mp hq with hq | hq
    · exact absurd hq (by decide)
    · exact hgq hq

theorem wf_cardinal_dash_alpha : ∀ i o : List Char, ∀ w : Int,
    (o, w) ∈ cardinal_dash_alpha i → WFFields o := by
  intro i o w h
  rw [cardinal_dash_alpha] at h
  obtain ⟨i1, i2, o1, w1, o2, w2, -, hA, hR, rfl, rfl⟩ := mem_concatF.mp h
  obtain ⟨rfl, rfl, rfl⟩ := mem_insertF.mp hA
  obtain ⟨i3, i4, oq, w3, oR2, w4, -, hq, hR2, rfl, rfl⟩ := mem_concatF.mp hR
  obtain ⟨i5, i6, od, w5, oR3, w6, -, hd, hR3, rfl, rfl⟩ := mem_concatF.mp hR2
  obtain ⟨-, rfl, rfl⟩ := mem_accepF.mp hd
  obtain ⟨i7, i8, oB, w7, oR4, w8, -, hB, hR4, rfl, rfl⟩ := mem_concatF.mp hR3
  obtain ⟨rfl, rfl, rfl⟩ := mem_insertF.mp hB
  obtain ⟨i9, i10, A, w9, oE, w10, -, hAl, hE, rfl, rfl⟩ := mem_concatF.mp hR4
  obtain ⟨rfl, rfl, rfl⟩ := mem_insertF.mp hE
  have hqA : '"' ∉ A := cleanF_charClassPlus (by decide) i9 A w9 hAl
  have hqq : '"' ∉ oq := clean_cardinal_graph i3 oq w3 hq
  have e : str "cardinal \x7b integer: \"" ++
      (oq ++ (str "-" ++ (str "\" \x7d units: \"" ++ (A ++ str "\"")))) =
      (str "cardinal" ++ str " \x7b " ++
          (str "integer" ++ str ": \"" ++ (oq ++ str "-") ++ str "\"") ++ str " \x7d") ++
        ' ' :: (str "units" ++ str ": \"" ++ A ++ str "\"") := by
    simp only [List.append_assoc, List.cons_append, List.nil_append]; rfl
  rw [e]
  refine WFFields.cons _ _
    (WFField.block _ _ (by decide) (WFFields.single _ (WFField.leaf _ _ (by decide) ?_)))
    (WFFields.single _ (WFField.leaf _ _ (by decide) hqA))
  intro hc
  rcases List.mem_append.mp hc with hc | hc
  · exact hqq hc
  · exact absurd hc (by decide)

theorem wf_alpha_dash_cardinal : ∀ i o : List Char, ∀ w : Int,
    (o, w) ∈ alpha_dash_cardinal i → WFFields o := by
  intro i o w h
  rw [alpha_dash_cardinal] at h
  obtain ⟨i1, i2, o1, w1, o2, w2, -, hA, hR, rfl, rfl⟩ := mem_concatF.mp h
  obtain ⟨rfl, rfl, rfl⟩ := mem_insertF.mp hA
  obtain ⟨i3, i4, A, w3, oR2, w4, -, hAl, hR2, rfl, rfl⟩ := mem_concatF.mp hR
  obtain ⟨i5, i6, od, w5, oR3, w6, -, hd, hR3, rfl, rfl⟩ := mem_concatF.mp hR2
  obtain ⟨-, rfl, rfl⟩ := mem_accepF.mp hd
  obtain ⟨i7, i8, oB, w7, oR4, w8, -, hB, hR4, rfl, rfl⟩ := mem_concatF.mp hR3
  obtain ⟨rfl, rfl, rfl⟩ := mem_insertF.mp hB
  obtain ⟨i9, i10, oC, w9, oR5, w10, -, hC, hR5, rfl, rfl⟩ := mem_concatF.mp hR4
  obtain ⟨rfl, rfl, rfl⟩ := mem_insertF.mp hC
  obtain ⟨i11, i12, oq, w11, oE, w12, -, hq, hE, rfl, rfl⟩ := mem_concatF.mp hR5
  obtain ⟨rfl, rfl, rfl⟩ := mem_insertF.mp hE
  have hqA : '"' ∉ A := cleanF_charClassPlus (by decide) i3 A w3 hAl
  have hqq : '"' ∉ oq := clean_cardinal_graph i11 oq w11 hq
  have e : str "units: \"" ++ (A ++ (str "-" ++ (str "\"" ++
      (str " cardinal \x7b integer: \"" ++ (oq ++ str "\" \x7d preserve_order: true"))))) =
      (str "units" ++ str ": \"" ++ (A ++ str "-") ++ str "\"") ++
        ' ' :: ((str "cardinal" ++ str " \x7b " ++
            (str "integer" ++ str ": \"" ++ oq ++ str "\"") ++ str " \x7d") ++
          ' ' :: str "preserve_order: true") := by
    simp only [List.append_assoc, List.cons_append, List.nil_append]; rfl
  rw [e]
  refine WFFields.cons _ _ (WFField.leaf _ _ (by decide) ?_)
    (WFFields.cons _ _
      (WFField.block _ _ (by decide)
        (WFFields.single _ (WFField.leaf _ _ (by decide) hqq)))
      (WFFields.single _ WFField.flag))
  intro hc
  rcases List.mem_append.mp hc with hc | hc
  · exact hqA hc
  · exact absurd hc (by decide)

theorem wf_decimal_dash_alpha : ∀ i o : List Char, ∀ w : Int,
    (o, w) ∈ decimal_dash_alpha i → WFFields o := by
  intro i o w h
  rw [decimal_dash_alpha] at h
  obtain ⟨i1, i2, o1, w1, o2, w2, -, hA, hR, rfl, rfl⟩ := mem_concatF.mp h
  obtain ⟨rfl, rfl, rfl⟩ := mem_insertF.mp hA
  obtain ⟨i3, i4, d, w3, oR2, w4, -, hd, hR2, rfl, rfl⟩ := mem_concatF.mp hR
  rw [final_graph_wo_negative] at hd
  obtain ⟨hdm, rfl⟩ := mem_stringMap.mp hd
  obtain ⟨i5, i6, oc, w5, oR3, w6, -, hc, hR3, rfl, rfl⟩ := mem_concatF.mp hR2
  obtain ⟨-, rfl, rfl⟩ := mem_crossF.mp hc
  obtain ⟨i7, i8, oB, w7, oR4, w8, -, hB, hR4, rfl, rfl⟩ := mem_concatF.mp hR3
  obtain ⟨rfl, rfl, rfl⟩ := mem_insertF.mp hB
  obtain ⟨i9, i10, A, w9, oE, w10, -, hAl, hE, rfl, rfl⟩ := mem_concatF.mp hR4
  obtain ⟨rfl, rfl, rfl⟩ := mem_insertF.mp hE
  have hqA : '"' ∉ A := cleanF_charClassPlus (by decide) i9 A w9 hAl
  have e : str "decimal \x7b " ++ (d ++ ([] ++ (str " \x7d units: \"" ++ (A ++ str "\"")))) =
      (str "decimal" ++ str " \x7b " ++ d ++ str " \x7d") ++
        ' ' :: (str "units" ++ str ": \"" ++ A ++ str "\"") := by
    simp only [List.append_assoc, List.cons_append, List.nil_append]; rfl
  rw [e]
  exact WFFields.cons _ _ (WFField.block _ _ (by decide) (wf_decimalTable _ hdm))
    (WFFields.single _ (WFField.leaf _ _ (by decide) hqA))

theorem wf_decimal_times : ∀ i o : List Char, ∀ w : Int,
    (o, w) ∈ decimal_times i → WFFields o := by
  intro i o w h
  rw [decimal_times] at h
  obtain ⟨i1, i2, o1, w1, o2, w2, -, hA, hR, rfl, rfl⟩ := mem_concatF.mp h
  obtain ⟨rfl, rfl, rfl⟩ := mem_insertF.mp hA
  obtain ⟨i3, i4, d, w3, oR2, w4, -, hd, hR2, rfl, rfl⟩ := mem_concatF.mp hR
  rw [final_graph_wo_negative] at hd
  obtain ⟨hdm, rfl⟩ := mem_stringMap.mp hd
  obtain ⟨i5, i6, oB, w5, oR3, w6, -, hB, hR3, rfl, rfl⟩ := mem_concatF.mp hR2
  obtain ⟨rfl, rfl, rfl⟩ := mem_insertF.mp hB
  obtain ⟨i7, i8, ox, w7, oE, w8, -, hx, hE, rfl, rfl⟩ := mem_concatF.mp hR3
  obtain ⟨rfl, rfl, rfl⟩ := mem_insertF.mp hE
  have hxE : ox = str "x" := by
    rcases mem_unionF.mp hx with hp | hp
    · exact (mem_crossF.mp hp).2.1
    · exact (mem_crossF.mp hp).2.1
  subst hxE
  have e : str "decimal \x7b " ++ (d ++ (str " \x7d units: \"" ++ (str "x" ++ str "\""))) =
      (str "decimal" ++ str " \x7b " ++ d ++ str " \x7d") ++
        ' ' :: (str "units" ++ str ": \"" ++ str "x" ++ str "\"") := by
    simp only [List.append_assoc, List.cons_append, List.nil_append]; rfl
  rw [e]
  exact WFFields.cons _ _ (WFField.block _ _ (by decide) (wf_decimalTable _ hdm))
    (WFFields.single _ (WFField.leaf _ _ (by decide) (by decide)))

theorem wf_alpha_dash_decimal : ∀ i o : List Char, ∀ w : Int,
    (o, w) ∈ alpha_dash_decimal i → WFFields o := by
  intro i o w h
  rw [alpha_dash_decimal] at h
  obtain ⟨i1, i2, o1, w1, o2, w2, -, hA, hR, rfl, rfl⟩ := mem_concatF.mp h
  obtain ⟨rfl, rfl, rfl⟩ := mem_insertF.mp hA
  obtain ⟨i3, i4, A, w3, oR2, w4, -, hAl, hR2, rfl, rfl⟩ := mem_concatF.mp hR
  obtain ⟨i5, i6, od, w5, oR3, w6, -, hd, hR3, rfl, rfl⟩ := mem_concatF.mp hR2
  obtain ⟨-, rfl, rfl⟩ := mem_accepF.mp hd
  obtain ⟨i7, i8, oB, w7, oR4, w8, -, hB, hR4, rfl, rfl⟩ := mem_concatF.mp hR3
  obtain ⟨rfl, rfl, rfl⟩ := mem_insertF.mp hB
  obtain ⟨i9, i10, oC, w9, oR5, w10, -, hC, hR5, rfl, rfl⟩ := mem_concatF.mp hR4
  obtain ⟨rfl, rfl, rfl⟩ := mem_insertF.mp hC
  obtain ⟨i11, i12, D, w11, oE, w12, -, hD, hE, rfl, rfl⟩ := mem_concatF.mp hR5
  rw [final_graph_wo_negative] at hD
  obtain ⟨hdm, rfl⟩ := mem_stringMap.mp hD
  obtain ⟨rfl, rfl, rfl⟩ := mem_insertF.mp hE
  have hqA : '"' ∉ A := cleanF_charClassPlus (by decide) i3 A w3 hAl
  have e : str "units: \"" ++ (A ++ (str "-" ++ (str "\"" ++
      (str " decimal \x7b " ++ (D ++ str " \x7d preserve_order: true"))))) =
      (str "units" ++ str ": \"" ++ (A ++ str "-") ++ str "\"") ++
        ' ' :: ((str "decimal" ++ str " \x7b " ++ D ++ str " \x7d") ++
          ' ' :: str "preserve_order: true") := by
    simp only [List.append_assoc, List.cons_append, List.nil_append]; rfl
  rw [e]
  refine WFFields.cons _ _ (WFField.leaf _ _ (by decide) ?_)
    (WFFields.cons _ _ (WFField.block _ _ (by decide) (wf_decimalTable _ hdm))
      (WFFields.single _ WFField.flag))
  intro hc
  rcases List.mem_append.mp hc with hc | hc
  · exact hqA hc
  · exact absurd hc (by decide)

theorem wf_subgraph_fraction : ∀ i o : List Char, ∀ w : Int,
    (o, w) ∈ subgraph_fraction i → WFFields o := by
  intro i o w h
  rw [subgraph_fraction] at h
  obtain ⟨i1, i2, o1, w1, o2, w2, -, hA, hR, rfl, rfl⟩ := mem_concatF.mp h
  obtain ⟨rfl, rfl, rfl⟩ := mem_insertF.mp hA
  obtain ⟨i3, i4, FR, w3, oR2, w4, -, hF, hR2, rfl, rfl⟩ := mem_concatF.mp hR
  rw [fraction_graph] at hF
  obtain ⟨hfm, rfl⟩ := mem_stringMap.mp hF
  obtain ⟨i5, i6, osp, w5, oR3, w6, -, hsp, hR3, rfl, rfl⟩ := mem_concatF.mp hR2
  obtain ⟨-, rfl, rfl⟩ := mem_delete_space.mp hsp
  obtain ⟨i7, i8, oB, w7, uo, w8, -, hB, hu, rfl, rfl⟩ := mem_concatF.mp hR3
  obtain ⟨rfl, rfl, rfl⟩ := mem_insertF.mp hB
  obtain ⟨u, rfl, hqu⟩ := unit_plural_shape hu
  have e : str "fraction \x7b " ++ (FR ++ ([] ++ (str " \x7d " ++
      (str "units: \"" ++ (u ++ str "\""))))) =
      (str "fraction" ++ str " \x7b " ++ FR ++ str " \x7d") ++
        ' ' :: (str "units" ++ str ": \"" ++ u ++ str "\"") := by
    simp only [List.append_assoc, List.cons_append, List.nil_append]; rfl
  rw [e]
  exact WFFields.cons _ _ (WFField.block _ _ (by decide) (wf_fractionTable _ hfm))
    (WFFields.single _ (WFField.leaf _ _ (by decide) hqu))

theorem wf_address_branch : ∀ i o : List Char, ∀ w : Int,
    (o, w) ∈ address_branch i → WFFields o := by
  intro i o w h
  rw [address_branch] at h
  obtain ⟨i1, i2, o1, w1, o2, w2, -, hA, hR, rfl, rfl⟩ := mem_concatF.mp h
  obtain ⟨rfl, rfl, rfl⟩ := mem_insertF.mp hA
  obtain ⟨i3, i4, S, w3, oE, w4, -, hS, hE, rfl, rfl⟩ := mem_concatF.mp hR
  obtain ⟨rfl, rfl, rfl⟩ := mem_insertF.mp hE
  have hqS : '"' ∉ S := clean_address_graph i3 S w3 hS
  have e : str "units: \"address\" cardinal \x7b integer: \"" ++
      (S ++ str "\" \x7d preserve_order: true") =
      (str "units" ++ str ": \"" ++ str "address" ++ str "\"") ++
        ' ' :: ((str "cardinal" ++ str " \x7b " ++
            (str "integer" ++ str ": \"" ++ S ++ str "\"") ++ str " \x7d") ++
          ' ' :: str "preserve_order: true") := by
    simp only [List.append_assoc, List.cons_append, List.nil_append]; rfl
  rw [e]
  exact WFFields.cons _ _ (WFField.leaf _ _ (by decide) (by decide))
    (WFFields.cons _ _
      (WFField.block _ _ (by decide)
        (WFFields.single _ (WFField.leaf _ _ (by decide) hqS)))
      (WFFields.single _ WFField.flag))

theorem wf_math_branch : ∀ i o : List Char, ∀ w : Int,
    (o, w) ∈ math_branch i → WFFields o := by
  intro i o w h
  rw [math_branch] at h
  obtain ⟨i1, i2, o1, w1, o2, w2, -, hA, hR, rfl, rfl⟩ := mem_concatF.mp h
  obtain ⟨rfl, rfl, rfl⟩ := mem_insertF.mp hA
  obtain ⟨i3, i4, S, w3, oE, w4, -, hS, hE, rfl, rfl⟩ := mem_concatF.mp hR
  obtain ⟨rfl, rfl, rfl⟩ := mem_insertF.mp hE
  have hqS : '"' ∉ S := clean_math_core i3 S w3 hS
  have e : str "units: \"math\" cardinal \x7b integer: \"" ++
      (S ++ str "\" \x7d preserve_order: true") =
      (str "units" ++ str ": \"" ++ str "math" ++ str "\"") ++
        ' ' :: ((str "cardinal" ++ str " \x7b " ++
            (str "integer" ++ str ": \"" ++ S ++ str "\"") ++ str " \x7d") ++
          ' ' :: str "preserve_order: true") := by
    simp only [List.append_assoc, List.cons_append, List.nil_append]; rfl
  rw [e]
  exact WFFields.cons _ _ (WFField.leaf _ _ (by decide) (by decide))
    (WFFields.cons _ _
      (WFField.block _ _ (by decide)
        (WFFields.single _ (WFField.leaf _ _ (by decide) hqS)))
      (WFFields.single _ WFField.flag))

/-- C7: every accepting path of the finished composite transducer (the
union of all branches, token-wrapped) emits a well-formed TaggedToken
string: a `measure` block of properly nested, properly quoted field
blocks drawn from negative, cardinal/decimal/fraction blocks, units and
preserve_order; in particular every accepted input reaches at least one
well-formed output. -/
theorem C7_wellformed_outputs :
    ∀ i o : List Char, ∀ w : Int, (o, w) ∈ measure_fst i → WFField o := by
  intro i o w h
  rw [measure_fst, add_tokens] at h
  obtain ⟨i1, i2, o1, w1, o2, w2, -, hA, hR, rfl, rfl⟩ := mem_concatF.mp h
  obtain ⟨rfl, rfl, rfl⟩ := mem_insertF.mp hA
  obtain ⟨i3, i4, b, w3, oE, w4, -, hb, hE, rfl, rfl⟩ := mem_concatF.mp hR
  obtain ⟨rfl, rfl, rfl⟩ := mem_insertF.mp hE
  have hwf : WFFields b := by
    rw [final_graph] at hb
    rcases mem_unionF.mp hb with h1 | hb
    · exact wf_subgraph_decimal _ _ _ h1
    rcases mem_unionF.mp hb with h1 | hb
    · exact wf_subgraph_cardinal _ _ _ h1
    rcases mem_unionF.mp hb with h1 | hb
    · exact wf_unit_graph _ _ _ h1
    rcases mem_unionF.mp hb with h1 | hb
    · exact wf_cardinal_dash_alpha _ _ _ h1
    rcases mem_unionF.mp hb with h1 | hb
    · exact wf_alpha_dash_cardinal _ _ _ h1
    rcases mem_unionF.mp hb with h1 | hb
    · exact wf_decimal_dash_alpha _ _ _ h1
    rcases mem_unionF.mp hb with h1 | hb
    · exact wf_decimal_times _ _ _ h1
    rcases mem_unionF.mp hb with h1 | hb
    · exact wf_alpha_dash_decimal _ _ _ h1
    rcases mem_unionF.mp hb with h1 | hb
    · exact wf_subgraph_fraction _ _ _ h1
    rcases mem_unionF.mp hb with h1 | h1
    · exact wf_address_branch _ _ _ h1
    · exact wf_math_branch _ _ _ h1
  have e : str "measure \x7b " ++ (b ++ str " \x7d") =
      str "measure" ++ str " \x7b " ++ b ++ str " \x7d" := by
    simp only [List.append_assoc, List.cons_append, List.nil_append]; rfl
  rw [e]
  exact WFField.block _ _ (by decide) hwf

/-- Witness for C7: the wrapped output for "1kg" is well-formed. -/
theorem C7_wellformed_outputs_witness :
    WFField (str "measure \x7b cardinal \x7b integer: \"one\" \x7d units: \"kilogram\" \x7d") :=
  C7_wellformed_outputs (str "1kg")
    (str "measure \x7b cardinal \x7b integer: \"one\" \x7d units: \"kilogram\" \x7d") 0
    (by decide)

/-- Witness for C5: the combinator characterization evaluated on the
consumed sign "-". -/
theorem C5_shared_negative_combinator_witness :
    str "-" = [] ∧ str "negative: \"true\" " = [] ∧ (0 : Int) = 0 ∨
    str "-" = str "-" ∧ str "negative: \"true\" " = str "negative: \"true\" " ∧
      (0 : Int) = 0 :=
  (C5_shared_negative_combinator.1 (str "-") (str "negative: \"true\" ") 0).mp (by decide)

/-- Witness for C9: the characterization evaluated on the accepted
case-folded input "KG". -/
theorem C9_casefolded_unit_variant_witness :
    ∃ p s : List Char, str "KG" = p ++ s ∧ p ≠ [] ∧ p.all Char.isUpper = true ∧
      s.all isAlphaChar = true ∧
      (p.map Char.toLower ++ s, str "kilogram") ∈ measurementsTable ∧ (0 : Int) = 0 :=
  (C9_casefolded_unit_variant.1 (str "KG") (str "kilogram") 0).mp (by decide)
